import Mathlib

/-!
# Worker pool of `unix/lab3_1/main.cpp`

A shallow embedding of the class `WorkerPool`: the wire messages `Work` and
`Result`, the worker loop `WorkerProc` with `ReadWork`, the distributor
`PostWork`, the collector `CollectResults` and the orchestrator `Multiply`.

Modelling conventions.

* `ll` (`int64_t`) is `Int`; the multiply-accumulate of the worker is reduced
  to the signed 64-bit range by `wrap64` after every operation.
* `size_t` is `Nat`.
* A socket pair is two first-in first-out queues, one per direction, and every
  message is transferred as one unit.  Each direction holds a bounded number
  of messages: `workCap` requests and `resultCap` replies.  The source does not
  fix the two bounds (they are the socket buffer sizes of the system), so
  they are parameters of the pool.
* `send` and `recv` are the blocking calls of the source.  A `send` into a
  full direction sleeps until the peer has made room, a `recv` on an empty
  direction sleeps until the peer has sent, and a `send` on a socket whose
  peer end is closed raises `SIGPIPE`, which ends the sending process.
* Each worker is a sequential process that talks to the coordinator only.
  `Worker.schedule` lets the child run until it sleeps or stops; the
  coordinator's `send` and `recv` schedule the child before they look at the
  socket, so a coordinator that finds no room, or no message, with the child
  asleep sleeps for ever (`Fault.blocked`).
* `assert` is enabled; a failed assertion, a fatal signal and undefined
  behaviour (an access outside a buffer or a vector, a read of an
  uninitialised object) end the run with a `Fault` that is paired with the
  pool state reached at that point.
-/

namespace Lab3

/-- `using ll = int64_t`. -/
abbrev ll := Int

abbrev Vec := List ll

abbrev Matrix := List (List ll)

/-- Reduction of an integer to the two's complement range of `int64_t`. -/
def wrap64 (x : Int) : Int := (x + 2 ^ 63) % 2 ^ 64 - 2 ^ 63

/-- `constexpr static uint64_t WORKER_NUMBER = 8`. -/
def WORKER_NUMBER : Nat := 8

/-- `constexpr static size_t MAX_PROCESS_PAYLOAD = 128`. -/
def MAX_PROCESS_PAYLOAD : Nat := 128

/-- `EXIT_SUCCESS` of `<cstdlib>`. -/
def EXIT_SUCCESS : Int := 0

/-- `SIGPIPE` of `<signal.h>`. -/
def SIGPIPE : Int := 13

/-- The anonymous enumeration of `struct Work` (`Value` is 0, `EOS` is 1). -/
inductive WorkType where
  | Value
  | EOS
deriving DecidableEq, Repr

/-- The anonymous enumeration of `struct Result` (`Value` is 0, `EOS` is 1). -/
inductive ResultType where
  | Value
  | EOS
deriving DecidableEq, Repr

/-- `struct Work`; `row` and `vec` are the two buffers of `MAX_PROCESS_PAYLOAD` elements. -/
structure Work where
  type : WorkType
  index : ll
  size : Nat
  row : List ll
  vec : List ll
deriving DecidableEq, Repr

/-- `struct Result`. -/
structure Result where
  type : ResultType
  index : ll
  value : ll
deriving DecidableEq, Repr

/-- A value-initialised `Work`: every member zero, so the tag is `Value`. -/
def Work.zero : Work :=
  { type := WorkType.Value, index := 0, size := 0,
    row := List.replicate MAX_PROCESS_PAYLOAD 0,
    vec := List.replicate MAX_PROCESS_PAYLOAD 0 }

/-- `Work work { .type = Work::EOS }`: the end marker, every other member zero. -/
def Work.eos : Work := { Work.zero with type := WorkType.EOS }

/-- The end marker among the results, `Result result { .value = 0 }` with
`result.type = Result::EOS`: tag `EOS`, every other member zero. -/
def Result.eos : Result := { type := ResultType.EOS, index := 0, value := 0 }

/-- The assertions of the class, in source order. -/
inductive Assertion where
  | matNonEmpty
  | vecNonEmpty
  | dimsMatch
  | endLeRows
  | sendRes
deriving DecidableEq, Repr

/-- The places where the source has undefined behaviour. -/
inductive Undefined where
  | memcpyOverflow
  | matrixIndex
  | workerIndex
  | resultIndex
  | uninitialisedResult
  | workerCrashed
deriving DecidableEq, Repr

/-- How a run of the coordinator can end without a result: a failed
assertion, undefined behaviour, a fatal signal, or a sleep in `send` or `recv`
from which nothing can wake it. -/
inductive Fault where
  | assertFailed (a : Assertion)
  | undefinedBehaviour (u : Undefined)
  | killed (signal : Int)
  | blocked
deriving DecidableEq, Repr

/-- What the worker process is doing between two scheduling points: at the top
of its loop (asleep in `recv` when the queue is empty), asleep in `send` with
the result it is sending, exited, killed by a signal, or lost to undefined
behaviour. -/
inductive ProcState where
  | running
  | sending (result : Result)
  | exited (status : Int)
  | killed (signal : Int)
  | undefined
deriving DecidableEq, Repr

/-- One entry of `m_workers` together with the socket pair and the child
process it stands for: `toWorker` holds what the coordinator sent and the
child has not read yet, `toPool` what the child sent and the coordinator has
not read yet, `workCap` and `resultCap` how many messages the two directions
hold, `fdOpen` says that the coordinator's descriptor is open, and
`childOpen` that the child's descriptor is. -/
structure Worker where
  toWorker : List Work
  toPool : List Result
  workCap : Nat
  resultCap : Nat
  fdOpen : Bool
  childOpen : Bool
  proc : ProcState
deriving DecidableEq, Repr

/-- The object state: `std::vector<Worker> m_workers`. -/
structure WorkerPool where
  m_workers : List Worker
deriving DecidableEq, Repr

/-- The value of `recv` in the child: `-1`, `0`, or a whole `Work`. -/
inductive RecvRes where
  | failed
  | closed
  | data (work : Work)
deriving DecidableEq, Repr

/-- `std::optional<Work> ReadWork(int fd)`, as a function of what `recv` gave. -/
def ReadWork : RecvRes → Option Work
  | RecvRes.failed => none
  | RecvRes.closed => none
  | RecvRes.data work => some work

/-- The accumulation loop of `WorkerProc`, `for (i = 0; i < size; i++)
result.value += work->row[i] * work->vec[i]`, after `n` iterations; `none`
when an index leaves a buffer. -/
def WorkerProc.accumulate (work : Work) : Nat → Option ll
  | 0 => some 0
  | n + 1 =>
    match WorkerProc.accumulate work n, work.row[n]?, work.vec[n]? with
    | some acc, some r, some v => some (wrap64 (acc + wrap64 (r * v)))
    | _, _, _ => none

/-- The child's `send(fd, &result, sizeof(Result), 0)`: with the coordinator's
end closed the child is killed by `SIGPIPE`; with room in the reply direction
the result is queued and the child is back at the top of its loop; otherwise
the child is asleep in `send`. -/
def Worker.childSend (w : Worker) (result : Result) : Worker :=
  if w.fdOpen = false then
    { w with childOpen := false, proc := ProcState.killed SIGPIPE }
  else if w.toPool.length < w.resultCap then
    { w with toPool := w.toPool ++ [result], proc := ProcState.running }
  else { w with proc := ProcState.sending result }

/-- One pass through the body of the `for (;;)` loop of `WorkerProc`, when
`recv` in `ReadWork` has given `r`; `w` is the socket pair and the child after
that `recv`. -/
def WorkerProc.pass (r : RecvRes) (w : Worker) : Worker :=
  match ReadWork r with
  | none => { w with childOpen := false, proc := ProcState.exited EXIT_SUCCESS }
  | some work =>
    match work.type with
    | WorkType.EOS => w.childSend { type := ResultType.EOS, index := 0, value := 0 }
    | WorkType.Value =>
      match WorkerProc.accumulate work work.size with
      | some value =>
        w.childSend { type := ResultType.Value, index := work.index, value := value }
      | none => { w with proc := ProcState.undefined }

/-- A run of `WorkerProc` from the top of its loop up to the point where the
child sleeps or stops.  The first argument is the queue of requests waiting
on the socket.  On an empty queue `recv` sleeps while the coordinator's end is
open and gives `0` once it is closed. -/
def WorkerProc : List Work → Worker → Worker
  | [], w =>
    if w.fdOpen = true then { w with toWorker := [] }
    else WorkerProc.pass RecvRes.closed { w with toWorker := [] }
  | work :: rest, w =>
    let w1 := WorkerProc.pass (RecvRes.data work) { w with toWorker := rest }
    match w1.proc with
    | ProcState.running => WorkerProc rest w1
    | _ => w1

/-- Lets the child run until it sleeps or stops: from the top of its loop it
runs `WorkerProc`; asleep in `send` it stays asleep unless there is room now
(or the coordinator's end is closed), in which case the `send` completes and
the loop goes on. -/
def Worker.schedule (w : Worker) : Worker :=
  match w.proc with
  | ProcState.running => WorkerProc w.toWorker w
  | ProcState.sending result =>
    if w.fdOpen = false ∨ w.toPool.length < w.resultCap then
      let w1 := w.childSend result
      match w1.proc with
      | ProcState.running => WorkerProc w1.toWorker w1
      | _ => w1
    else w
  | _ => w

/-- `sizeof(Work)` under `#pragma pack(push, 1)`. -/
def sizeofWork : Int := 4 + 8 + 8 + 8 * MAX_PROCESS_PAYLOAD + 8 * MAX_PROCESS_PAYLOAD

/-- How the coordinator's `send` ends: it returns a value, it sleeps for ever,
or it raises `SIGPIPE`. -/
inductive SendOutcome where
  | returned (res : Int) (w : Worker)
  | asleep
  | sigpipe
deriving DecidableEq, Repr

/-- The coordinator's `send(worker.fd, &work, sizeof(Work), 0)`.  On a closed
descriptor it returns `-1`; with the child's end closed it raises `SIGPIPE`;
with room in the request direction the message is queued; without room, the
child having run as far as it can, it sleeps for ever. -/
def Worker.send (w : Worker) (work : Work) : SendOutcome :=
  let w0 := w.schedule
  if w0.fdOpen = false then SendOutcome.returned (-1) w0
  else if w0.childOpen = false then SendOutcome.sigpipe
  else if w0.toWorker.length < w0.workCap then
    SendOutcome.returned sizeofWork ({ w0 with toWorker := w0.toWorker ++ [work] }).schedule
  else SendOutcome.asleep

/-- `memcpy(dst, src.data(), src.size() * sizeof(ll))` into a buffer; `none`
when the copy runs past the end of the buffer. -/
def memcpy (dst src : List ll) : Option (List ll) :=
  if src.length ≤ dst.length then some (src ++ dst.drop src.length) else none

/-- `void PostWork(Worker const & worker, Vec const & row, Vec const & vec,
size_t rowId)`: builds the `Value` message of one row and sends it. -/
def PostWork1 (worker : Worker) (row vec : Vec) (rowId : Nat) : Except Fault Worker :=
  let work : Work := { Work.zero with size := vec.length, index := (rowId : Int) }
  match memcpy work.row row with
  | none => Except.error (Fault.undefinedBehaviour Undefined.memcpyOverflow)
  | some rowBuf =>
    match memcpy work.vec vec with
    | none => Except.error (Fault.undefinedBehaviour Undefined.memcpyOverflow)
    | some vecBuf =>
      match worker.send { work with row := rowBuf, vec := vecBuf } with
      | SendOutcome.asleep => Except.error Fault.blocked
      | SendOutcome.sigpipe => Except.error (Fault.killed SIGPIPE)
      | SendOutcome.returned res worker1 =>
        if res > 0 then Except.ok worker1
        else Except.error (Fault.assertFailed Assertion.sendRes)

/-- The call `PostWork(m_workers[workerId], mat[rowId], vec, rowId)` with its
two subscripts. -/
def PostWork.call (mat : Matrix) (vec : Vec) (workerId rowId : Nat) (pool : WorkerPool) :
    Except (Fault × WorkerPool) WorkerPool :=
  match pool.m_workers[workerId]? with
  | none => Except.error (Fault.undefinedBehaviour Undefined.workerIndex, pool)
  | some worker =>
    match mat[rowId]? with
    | none => Except.error (Fault.undefinedBehaviour Undefined.matrixIndex, pool)
    | some row =>
      match PostWork1 worker row vec rowId with
      | Except.error f => Except.error (f, pool)
      | Except.ok worker1 => Except.ok { pool with m_workers := pool.m_workers.set workerId worker1 }

/-- The loop `for (size_t rowId = start; rowId < end; rowId++)` with `n`
iterations left. -/
def PostWork.rowLoop (mat : Matrix) (vec : Vec) (workerId : Nat) :
    Nat → Nat → WorkerPool → Except (Fault × WorkerPool) WorkerPool
  | 0, _, pool => Except.ok pool
  | n + 1, rowId, pool =>
    match PostWork.call mat vec workerId rowId pool with
    | Except.error e => Except.error e
    | Except.ok pool1 => PostWork.rowLoop mat vec workerId n (rowId + 1) pool1

/-- The loop `for (size_t workerId = 0; workerId < WORKER_NUMBER; workerId++)`
with `n` iterations left. -/
def PostWork.blockLoop (mat : Matrix) (vec : Vec) (rows workload : Nat) :
    Nat → Nat → WorkerPool → Except (Fault × WorkerPool) WorkerPool
  | 0, _, pool => Except.ok pool
  | n + 1, workerId, pool =>
    let start := workerId * workload
    let stop := (workerId + 1) * workload
    if stop ≤ rows then
      match PostWork.rowLoop mat vec workerId (stop - start) start pool with
      | Except.error e => Except.error e
      | Except.ok pool1 => PostWork.blockLoop mat vec rows workload n (workerId + 1) pool1
    else Except.error (Fault.assertFailed Assertion.endLeRows, pool)

/-- The loop `for (size_t i = 0; i < rem; i++)` with `n` iterations left. -/
def PostWork.remLoop (mat : Matrix) (vec : Vec) (workload : Nat) :
    Nat → Nat → WorkerPool → Except (Fault × WorkerPool) WorkerPool
  | 0, _, pool => Except.ok pool
  | n + 1, i, pool =>
    let rowId := workload * WORKER_NUMBER + i
    match PostWork.call mat vec i rowId pool with
    | Except.error e => Except.error e
    | Except.ok pool1 => PostWork.remLoop mat vec workload n (i + 1) pool1

/-- The loop `for (auto const & worker : m_workers)` that sends the end marker,
with `n` workers left and the next one at position `i`; the value of `send` is
not looked at. -/
def PostWork.eosLoop : Nat → Nat → WorkerPool → Except (Fault × WorkerPool) WorkerPool
  | 0, _, pool => Except.ok pool
  | n + 1, i, pool =>
    match pool.m_workers[i]? with
    | none => Except.ok pool
    | some worker =>
      match worker.send Work.eos with
      | SendOutcome.asleep => Except.error (Fault.blocked, pool)
      | SendOutcome.sigpipe => Except.error (Fault.killed SIGPIPE, pool)
      | SendOutcome.returned _ worker1 =>
        PostWork.eosLoop n (i + 1) { pool with m_workers := pool.m_workers.set i worker1 }

/-- `void PostWork(Matrix const & mat, Vec const & vec)`. -/
def PostWork (pool : WorkerPool) (mat : Matrix) (vec : Vec) :
    Except (Fault × WorkerPool) WorkerPool :=
  let rows := mat.length
  let workload := rows / WORKER_NUMBER
  let rem := rows % WORKER_NUMBER
  match PostWork.blockLoop mat vec rows workload WORKER_NUMBER 0 pool with
  | Except.error e => Except.error e
  | Except.ok pool1 =>
    match PostWork.remLoop mat vec workload rem 0 pool1 with
    | Except.error e => Except.error e
    | Except.ok pool2 => PostWork.eosLoop pool2.m_workers.length 0 pool2

/-- The coordinator's `recv(worker.fd, &res, sizeof(Result), 0)`: the child is
scheduled, and the head of the reply queue is taken.  On an empty queue the
call sleeps for ever while the child's end is open, and otherwise returns
without having written `res`, which the caller then reads. -/
def Worker.recv (w : Worker) : Except Fault (Result × Worker) :=
  let w0 := w.schedule
  match w0.proc with
  | ProcState.undefined => Except.error (Fault.undefinedBehaviour Undefined.workerCrashed)
  | _ =>
    match w0.toPool with
    | res :: rest => Except.ok (res, { w0 with toPool := rest })
    | [] =>
      if w0.fdOpen = true ∧ w0.childOpen = true then Except.error Fault.blocked
      else Except.error (Fault.undefinedBehaviour Undefined.uninitialisedResult)

/-- The inner `for (;;)` of `CollectResults` on one socket, with `fuel` bounding
the number of passes.  Every pass takes one message out of the socket pair, so
`CollectResults.worker` gives it more fuel than there are messages. -/
def CollectResults.drain : Nat → Worker → Vec → Except Fault (Vec × Worker)
  | 0, _, _ => Except.error Fault.blocked
  | fuel + 1, w, vec =>
    match w.recv with
    | Except.error f => Except.error f
    | Except.ok (res, w1) =>
      match res.type with
      | ResultType.EOS => Except.ok (vec, w1)
      | ResultType.Value =>
        if 0 ≤ res.index ∧ res.index.toNat < vec.length then
          CollectResults.drain fuel w1 (vec.set res.index.toNat res.value)
        else Except.error (Fault.undefinedBehaviour Undefined.resultIndex)

/-- The number of messages in a socket pair: queued requests, queued replies,
and the reply the child is asleep sending. -/
def Worker.inFlight (w : Worker) : Nat :=
  w.toWorker.length + w.toPool.length +
    (match w.proc with
     | ProcState.sending _ => 1
     | _ => 0)

/-- The body of `for (auto const & worker : m_workers)` in `CollectResults`. -/
def CollectResults.worker (w : Worker) (vec : Vec) : Except Fault (Vec × Worker) :=
  CollectResults.drain (w.inFlight + 1) w vec

/-- The loop `for (auto const & worker : m_workers)` of `CollectResults` with
`n` workers left, the next one at position `i`. -/
def CollectResults.loop : Nat → Nat → WorkerPool → Vec → Except (Fault × WorkerPool) (Vec × WorkerPool)
  | 0, _, pool, vec => Except.ok (vec, pool)
  | n + 1, i, pool, vec =>
    match pool.m_workers[i]? with
    | none => Except.ok (vec, pool)
    | some w =>
      match CollectResults.worker w vec with
      | Except.error f => Except.error (f, pool)
      | Except.ok (vec1, w1) =>
        CollectResults.loop n (i + 1) { pool with m_workers := pool.m_workers.set i w1 } vec1

/-- `Vec CollectResults(size_t rowsN)`. -/
def CollectResults (pool : WorkerPool) (rowsN : Nat) : Except (Fault × WorkerPool) (Vec × WorkerPool) :=
  CollectResults.loop pool.m_workers.length 0 pool (List.replicate rowsN 0)

/-- `Vec Multiply(Matrix const & mat, Vec const & vec)`: the result vector and
the pool afterwards, or the fault and the pool at the point of the fault. -/
def Multiply (pool : WorkerPool) (mat : Matrix) (vec : Vec) :
    Except (Fault × WorkerPool) (Vec × WorkerPool) :=
  match mat with
  | [] => Except.error (Fault.assertFailed Assertion.matNonEmpty, pool)
  | row0 :: _ =>
    if vec.length > 0 then
      if row0.length = vec.length then
        match PostWork pool mat vec with
        | Except.error e => Except.error e
        | Except.ok pool1 => CollectResults pool1 mat.length
      else Except.error (Fault.assertFailed Assertion.dimsMatch, pool)
    else Except.error (Fault.assertFailed Assertion.vecNonEmpty, pool)

/-- A worker as `SpawnWorkers` leaves it: both ends open, both queues empty,
the child at the top of its loop; the two capacities are those of the socket
pair. -/
def Worker.fresh (workCap resultCap : Nat) : Worker :=
  { toWorker := [], toPool := [], workCap := workCap, resultCap := resultCap,
    fdOpen := true, childOpen := true, proc := ProcState.running }

/-- The pool after a successful `SpawnWorkers`, every socket pair with the same
two capacities. -/
def WorkerPool.fresh (workCap resultCap : Nat) : WorkerPool :=
  { m_workers := List.replicate WORKER_NUMBER (Worker.fresh workCap resultCap) }

/-- The `Value` message of row `rowId`: tag `Value`, the row index, the length
of the vector, and the two buffers filled from the front, zero behind. -/
def valueWork (row vec : Vec) (rowId : Nat) : Work :=
  { type := WorkType.Value, index := (rowId : Int), size := vec.length,
    row := row ++ List.replicate (MAX_PROCESS_PAYLOAD - row.length) 0,
    vec := vec ++ List.replicate (MAX_PROCESS_PAYLOAD - vec.length) 0 }

/-- The `Value` message of row `r` of the matrix. -/
def rowWork (mat : Matrix) (vec : Vec) (r : Nat) : Work :=
  valueWork ((mat[r]?).getD []) vec r

/-- The exact dot product of a row and the vector. -/
def dotProduct (row vec : Vec) : Int := (List.zipWith (fun a b => a * b) row vec).sum

/-- The dot product by 64-bit signed multiply-accumulate without overflow
checking: every product and every sum is reduced to the `int64_t` range. -/
def mulAcc64 (row vec : Vec) : ll :=
  (List.zipWith (fun a b => (a, b)) row vec).foldl
    (fun acc ab => wrap64 (acc + wrap64 (ab.1 * ab.2))) 0

/-- The `Value` result of row `r`: the row index and the 64-bit dot product. -/
def rowResult (mat : Matrix) (vec : Vec) (r : Nat) : Result :=
  { type := ResultType.Value, index := (r : Int), value := mulAcc64 ((mat[r]?).getD []) vec }

/-- A valid input of `Multiply`: a non-empty matrix, a non-empty vector, every
row as long as the vector, and that length within the payload capacity. -/
def ValidInput (mat : Matrix) (vec : Vec) : Prop :=
  mat ≠ [] ∧ vec ≠ [] ∧ (∀ row ∈ mat, row.length = vec.length) ∧
    vec.length ≤ MAX_PROCESS_PAYLOAD

/-- The column count of a matrix, read off its first row as `mat[0].size()`. -/
def columnCount (mat : Matrix) : Option Nat := mat.head?.map List.length

/-- The three assertions at the head of `Multiply`. -/
def Assertion.isPrecondition : Assertion → Bool
  | Assertion.matNonEmpty => true
  | Assertion.vecNonEmpty => true
  | Assertion.dimsMatch => true
  | _ => false

/-- The faults of the distributor that come from an index: the assertion
`end <= rows`, a row subscript outside the matrix, a worker subscript outside
`m_workers`. -/
def Fault.isIndexFault : Fault → Bool
  | Fault.assertFailed Assertion.endLeRows => true
  | Fault.undefinedBehaviour Undefined.matrixIndex => true
  | Fault.undefinedBehaviour Undefined.workerIndex => true
  | _ => false

/-- The outcome of a part of `PostWork` is free of index faults, and a pool it
gives still has `len` handles. -/
def IndexSafe (len : Nat) : Except (Fault × WorkerPool) WorkerPool → Prop
  | Except.error e => e.1.isIndexFault = false
  | Except.ok pool => pool.m_workers.length = len

/-- Worker 0 of a pool as constructed after `PostWork` has sent it the rows
`0, ..., k - 1` and nothing has been collected.  Up to `resultCap` rows the
child has answered every one and is back in `recv`; from then on it is asleep
in the `send` of the reply to row `resultCap`, and the later rows wait unread
on the socket. -/
def loaded (workCap resultCap : Nat) (mat : Matrix) (vec : Vec) (k : Nat) : Worker :=
  if k ≤ resultCap then
    { Worker.fresh workCap resultCap with
      toPool := (List.range k).map (rowResult mat vec) }
  else
    { Worker.fresh workCap resultCap with
      toWorker := (List.range' (resultCap + 1) (k - (resultCap + 1))).map (rowWork mat vec),
      toPool := (List.range resultCap).map (rowResult mat vec),
      proc := ProcState.sending (rowResult mat vec resultCap) }

/-- The pool as constructed after `PostWork` has sent the rows `0, ..., k - 1`
to worker 0 and nothing to the other workers. -/
def loading (workCap resultCap : Nat) (mat : Matrix) (vec : Vec) (k : Nat) : WorkerPool :=
  { m_workers := loaded workCap resultCap mat vec k ::
      List.replicate (WORKER_NUMBER - 1) (Worker.fresh workCap resultCap) }

/-- The pool in which `PostWork` comes to a halt on a large matrix: worker 0
holds `resultCap` replies, is asleep sending one more and has `workCap`
requests unread; the other workers are as constructed. -/
def stalled (workCap resultCap : Nat) (mat : Matrix) (vec : Vec) : WorkerPool :=
  loading workCap resultCap mat vec (resultCap + 1 + workCap)

/-- The rows of worker `i` in the words of the specification: the block
`[i * (R / W), (i + 1) * (R / W))`, then the leftover row `(R / W) * W + i` when
`i < R % W`. -/
def assignedRows (rows i : Nat) : List Nat :=
  List.range' (i * (rows / WORKER_NUMBER)) (rows / WORKER_NUMBER) ++
    (if i < rows % WORKER_NUMBER then [rows / WORKER_NUMBER * WORKER_NUMBER + i] else [])

/-- The reply stream of worker `i` in the words of the specification: the
`Value` results of its rows in the order the rows were sent, then one end
marker. -/
def replyStream (mat : Matrix) (vec : Vec) (i : Nat) : List Result :=
  (assignedRows mat.length i).map (rowResult mat vec) ++ [Result.eos]

/-- The output vector after the results of the rows `rs` have been written. -/
def writeRows (mat : Matrix) (vec : Vec) (out : Vec) (rs : List Nat) : Vec :=
  rs.foldl (fun o r => o.set r (mulAcc64 ((mat[r]?).getD []) vec)) out

/-- The row indices that one `PostWork` sends, worker by worker. -/
def allAssignedRows (rows : Nat) : List Nat :=
  (List.range WORKER_NUMBER).flatMap (assignedRows rows)

/-- A worker as constructed that has answered every request it was sent, with
the replies `replies` waiting to be collected. -/
def Worker.answered (workCap resultCap : Nat) (replies : List Result) : Worker :=
  { Worker.fresh workCap resultCap with toPool := replies }

/-- The pool as constructed in which worker `i` has answered every request it
was sent and the replies `f i` wait to be collected. -/
def answered (workCap resultCap : Nat) (f : Nat → List Result) : WorkerPool :=
  { m_workers := (List.range WORKER_NUMBER).map (fun i => Worker.answered workCap resultCap (f i)) }

/-- The pool in the middle of `CollectResults` on a matrix that fits: the
workers before position `i` have been drained, the others hold their reply
stream. -/
def collecting (workCap resultCap : Nat) (mat : Matrix) (vec : Vec) (i : Nat) : WorkerPool :=
  answered workCap resultCap (fun j => if j < i then [] else replyStream mat vec j)

/-! ## Arithmetic of the accumulation loop -/

theorem wrap64_add_wrap64 (a b : Int) : wrap64 (a + wrap64 b) = wrap64 (a + b) := by
  unfold wrap64
  omega

theorem wrap64_wrap64 (a : Int) : wrap64 (wrap64 a) = wrap64 a := by
  unfold wrap64
  omega

theorem wrap64_of_range (a : Int) (h1 : -(2 ^ 63) ≤ a) (h2 : a < 2 ^ 63) : wrap64 a = a := by
  unfold wrap64
  omega

theorem wrap64_wrap64_add (a b : Int) : wrap64 (wrap64 a + b) = wrap64 (a + b) := by
  unfold wrap64
  omega

theorem mulAcc64_foldl (l : List (Int × Int)) (acc : Int) :
    l.foldl (fun acc ab => wrap64 (acc + wrap64 (ab.1 * ab.2))) (wrap64 acc)
      = wrap64 (acc + (l.map (fun ab => ab.1 * ab.2)).sum) := by
  induction l generalizing acc with
  | nil => simp
  | cons x xs ih =>
    simp only [List.foldl_cons, List.map_cons, List.sum_cons]
    rw [wrap64_add_wrap64, wrap64_wrap64_add, ih]
    congr 1
    ring

theorem mulAcc64_eq (row vec : Vec) : mulAcc64 row vec = wrap64 (dotProduct row vec) := by
  have h := mulAcc64_foldl (List.zipWith (fun a b => (a, b)) row vec) 0
  have h0 : wrap64 0 = 0 := by decide
  rw [h0] at h
  unfold mulAcc64 dotProduct
  rw [h, List.map_zipWith]
  simp

theorem accumulate_take (work : Work) (n : Nat) (hr : n ≤ work.row.length)
    (hv : n ≤ work.vec.length) :
    WorkerProc.accumulate work n
      = some (wrap64 (dotProduct (work.row.take n) (work.vec.take n))) := by
  induction n with
  | zero => simp [WorkerProc.accumulate, dotProduct]; decide
  | succ n ih =>
    have hr1 : n < work.row.length := by omega
    have hv1 : n < work.vec.length := by omega
    have ih1 := ih (by omega) (by omega)
    have e1 : work.row[n]? = some work.row[n] := List.getElem?_eq_getElem hr1
    have e2 : work.vec[n]? = some work.vec[n] := List.getElem?_eq_getElem hv1
    simp only [WorkerProc.accumulate, ih1, e1, e2]
    rw [wrap64_add_wrap64, wrap64_wrap64_add]
    congr 2
    unfold dotProduct
    rw [List.take_succ, List.take_succ, e1, e2]
    simp only [Option.toList_some]
    rw [List.zipWith_append]
    · simp
    · simp [List.length_take]; omega

theorem dotProduct_zeros (k : Nat) (vec : Vec) :
    dotProduct (List.replicate k (0 : Int)) vec = 0 := by
  induction vec generalizing k with
  | nil => simp [dotProduct]
  | cons v vs ih =>
    cases k with
    | zero => simp [dotProduct]
    | succ k =>
      have := ih k
      simp only [dotProduct] at this ⊢
      simp [List.replicate_succ, this]

theorem dotProduct_padded (row vec : Vec) (k : Nat) :
    dotProduct ((row ++ List.replicate k 0).take vec.length) vec = dotProduct row vec := by
  induction row generalizing vec with
  | nil => simpa using dotProduct_zeros _ vec
  | cons r rs ih =>
    cases vec with
    | nil => simp [dotProduct]
    | cons v vs =>
      have := ih vs
      simp only [dotProduct] at this ⊢
      simp [this]

theorem accumulate_valueWork (row vec : Vec) (rowId : Nat)
    (hr : row.length ≤ MAX_PROCESS_PAYLOAD) (hv : vec.length ≤ MAX_PROCESS_PAYLOAD) :
    WorkerProc.accumulate (valueWork row vec rowId) (valueWork row vec rowId).size
      = some (mulAcc64 row vec) := by
  rw [accumulate_take, mulAcc64_eq]
  · simp only [valueWork]
    rw [List.take_left, dotProduct_padded]
  · simp [valueWork]; omega
  · simp [valueWork]

/-! ## The sockets -/

theorem memcpy_zero (src : Vec) (h : src.length ≤ MAX_PROCESS_PAYLOAD) :
    memcpy (List.replicate MAX_PROCESS_PAYLOAD 0) src
      = some (src ++ List.replicate (MAX_PROCESS_PAYLOAD - src.length) 0) := by
  simp [memcpy, h]

theorem memcpy_zero_none (src : Vec) (h : MAX_PROCESS_PAYLOAD < src.length) :
    memcpy (List.replicate MAX_PROCESS_PAYLOAD 0) src = none := by
  simp [memcpy, h]

theorem sizeofWork_pos : sizeofWork > 0 := by decide

/-- Every row of the matrix fits the payload buffer. -/
theorem row_fits_of_mem (mat : Matrix) (hm : ∀ row ∈ mat, row.length ≤ MAX_PROCESS_PAYLOAD)
    (r : Nat) (h : r < mat.length) :
    mat[r]? = some ((mat[r]?).getD []) ∧ ((mat[r]?).getD []).length ≤ MAX_PROCESS_PAYLOAD := by
  have e : mat[r]? = some mat[r] := List.getElem?_eq_getElem h
  rw [e]
  exact ⟨rfl, hm _ (List.getElem_mem h)⟩

theorem pass_rowWork (mat : Matrix) (vec : Vec) (hv : vec.length ≤ MAX_PROCESS_PAYLOAD)
    (hm : ∀ row ∈ mat, row.length ≤ MAX_PROCESS_PAYLOAD) (r : Nat) (hr : r < mat.length)
    (w : Worker) :
    WorkerProc.pass (RecvRes.data (rowWork mat vec r)) w = w.childSend (rowResult mat vec r) := by
  obtain ⟨_, hfit⟩ := row_fits_of_mem mat hm r hr
  have hacc := accumulate_valueWork ((mat[r]?).getD []) vec r hfit hv
  have ht : (rowWork mat vec r).type = WorkType.Value := rfl
  simp only [WorkerProc.pass, ReadWork, ht]
  unfold rowWork
  rw [hacc]
  rfl

theorem pass_eos (w : Worker) :
    WorkerProc.pass (RecvRes.data Work.eos) w = w.childSend Result.eos := rfl

theorem PostWork1_send (w : Worker) (row vec : Vec) (rowId : Nat)
    (hr : row.length ≤ MAX_PROCESS_PAYLOAD) (hv : vec.length ≤ MAX_PROCESS_PAYLOAD) :
    PostWork1 w row vec rowId =
      match w.send (valueWork row vec rowId) with
      | SendOutcome.asleep => Except.error Fault.blocked
      | SendOutcome.sigpipe => Except.error (Fault.killed SIGPIPE)
      | SendOutcome.returned res worker1 =>
        if res > 0 then Except.ok worker1
        else Except.error (Fault.assertFailed Assertion.sendRes) := by
  simp only [PostWork1, Work.zero, memcpy_zero row hr, memcpy_zero vec hv]
  rfl

/-! ## The pool that fills up -/

theorem loaded_le (workCap resultCap : Nat) (mat : Matrix) (vec : Vec) (k : Nat)
    (h : k ≤ resultCap) :
    loaded workCap resultCap mat vec k
      = { Worker.fresh workCap resultCap with
          toPool := (List.range k).map (rowResult mat vec) } := by
  simp [loaded, h]

theorem loaded_gt (workCap resultCap : Nat) (mat : Matrix) (vec : Vec) (k : Nat)
    (h : resultCap < k) :
    loaded workCap resultCap mat vec k
      = { Worker.fresh workCap resultCap with
          toWorker := (List.range' (resultCap + 1) (k - (resultCap + 1))).map (rowWork mat vec),
          toPool := (List.range resultCap).map (rowResult mat vec),
          proc := ProcState.sending (rowResult mat vec resultCap) } := by
  have : ¬ k ≤ resultCap := by omega
  simp [loaded, this]

theorem loaded_zero (workCap resultCap : Nat) (mat : Matrix) (vec : Vec) :
    loaded workCap resultCap mat vec 0 = Worker.fresh workCap resultCap := by
  rw [loaded_le _ _ _ _ _ (Nat.zero_le _)]
  rfl

theorem schedule_loaded (workCap resultCap : Nat) (mat : Matrix) (vec : Vec) (k : Nat) :
    (loaded workCap resultCap mat vec k).schedule = loaded workCap resultCap mat vec k := by
  by_cases h : k ≤ resultCap
  · rw [loaded_le _ _ _ _ _ h]
    simp [Worker.schedule, Worker.fresh, WorkerProc]
  · rw [loaded_gt _ _ _ _ _ (by omega)]
    simp [Worker.schedule, Worker.fresh]

theorem send_loaded (workCap resultCap : Nat) (mat : Matrix) (vec : Vec)
    (hv : vec.length ≤ MAX_PROCESS_PAYLOAD)
    (hm : ∀ row ∈ mat, row.length ≤ MAX_PROCESS_PAYLOAD) (k : Nat)
    (hk : k < resultCap + 1 + workCap) (hW : 1 ≤ workCap) (hr : k < mat.length) :
    (loaded workCap resultCap mat vec k).send (rowWork mat vec k)
      = SendOutcome.returned sizeofWork (loaded workCap resultCap mat vec (k + 1)) := by
  unfold Worker.send
  simp only [schedule_loaded]
  have hp := pass_rowWork mat vec hv hm k hr
  rcases Nat.lt_trichotomy k resultCap with h | h | h
  · rw [loaded_le _ _ _ _ _ (Nat.le_of_lt h), loaded_le _ _ _ _ _ (by omega : k + 1 ≤ resultCap)]
    simp [Worker.fresh, Worker.schedule, WorkerProc, hp, Worker.childSend, h, List.range_succ]
    omega
  · subst h
    rw [loaded_le _ _ _ _ _ (Nat.le_refl _), loaded_gt _ _ _ _ _ (Nat.lt_succ_self _)]
    simp [Worker.fresh, Worker.schedule, WorkerProc, hp, Worker.childSend]
    omega
  · rw [loaded_gt _ _ _ _ _ h, loaded_gt _ _ _ _ _ (by omega : resultCap < k + 1)]
    have e : k + 1 - (resultCap + 1) = (k - (resultCap + 1)) + 1 := by omega
    have e2 : resultCap + 1 + (k - (resultCap + 1)) = k := by omega
    simp [Worker.fresh, Worker.schedule, e, List.range'_concat, e2]
    omega

theorem send_loaded_full (workCap resultCap : Nat) (mat : Matrix) (vec : Vec) (work : Work) :
    (loaded workCap resultCap mat vec (resultCap + 1 + workCap)).send work
      = SendOutcome.asleep := by
  unfold Worker.send
  simp only [schedule_loaded]
  rw [loaded_gt _ _ _ _ _ (by omega)]
  simp [Worker.fresh]

theorem loading_zero (workCap resultCap : Nat) (mat : Matrix) (vec : Vec) :
    loading workCap resultCap mat vec 0 = WorkerPool.fresh workCap resultCap := by
  simp only [loading, loaded_zero, WorkerPool.fresh, WorkerPool.mk.injEq]
  rfl

theorem call_loading (workCap resultCap : Nat) (mat : Matrix) (vec : Vec)
    (hv : vec.length ≤ MAX_PROCESS_PAYLOAD)
    (hm : ∀ row ∈ mat, row.length ≤ MAX_PROCESS_PAYLOAD) (k : Nat)
    (hk : k < resultCap + 1 + workCap) (hW : 1 ≤ workCap) (hr : k < mat.length) :
    PostWork.call mat vec 0 k (loading workCap resultCap mat vec k)
      = Except.ok (loading workCap resultCap mat vec (k + 1)) := by
  obtain ⟨hrow, hfit⟩ := row_fits_of_mem mat hm k hr
  have hs := send_loaded workCap resultCap mat vec hv hm k hk hW hr
  unfold rowWork at hs
  have hget : (loading workCap resultCap mat vec k).m_workers[0]?
      = some (loaded workCap resultCap mat vec k) := rfl
  have hset : (loading workCap resultCap mat vec k).m_workers.set 0
        (loaded workCap resultCap mat vec (k + 1))
      = (loading workCap resultCap mat vec (k + 1)).m_workers := rfl
  unfold PostWork.call
  rw [hget, hrow]
  simp only
  rw [PostWork1_send _ _ vec k hfit hv, hs]
  simp only [sizeofWork_pos, if_true]
  rw [hset]

theorem call_stalled (workCap resultCap : Nat) (mat : Matrix) (vec : Vec)
    (hv : vec.length ≤ MAX_PROCESS_PAYLOAD)
    (hm : ∀ row ∈ mat, row.length ≤ MAX_PROCESS_PAYLOAD) (k : Nat) (hr : k < mat.length) :
    PostWork.call mat vec 0 k (loading workCap resultCap mat vec (resultCap + 1 + workCap))
      = Except.error (Fault.blocked, stalled workCap resultCap mat vec) := by
  obtain ⟨hrow, hfit⟩ := row_fits_of_mem mat hm k hr
  have hget : (loading workCap resultCap mat vec (resultCap + 1 + workCap)).m_workers[0]?
      = some (loaded workCap resultCap mat vec (resultCap + 1 + workCap)) := rfl
  unfold PostWork.call
  rw [hget, hrow]
  simp only
  rw [PostWork1_send _ _ vec k hfit hv, send_loaded_full]
  rfl

theorem rowLoop_stalls (workCap resultCap : Nat) (mat : Matrix) (vec : Vec)
    (hv : vec.length ≤ MAX_PROCESS_PAYLOAD)
    (hm : ∀ row ∈ mat, row.length ≤ MAX_PROCESS_PAYLOAD) (hW : 1 ≤ workCap) (n : Nat) :
    ∀ k, k ≤ resultCap + 1 + workCap → resultCap + 1 + workCap < k + n →
      k + n ≤ mat.length →
      PostWork.rowLoop mat vec 0 n k (loading workCap resultCap mat vec k)
        = Except.error (Fault.blocked, stalled workCap resultCap mat vec) := by
  induction n with
  | zero => intro k h1 h2 _; omega
  | succ n ih =>
    intro k h1 h2 h3
    simp only [PostWork.rowLoop]
    by_cases hk : k = resultCap + 1 + workCap
    · subst hk
      rw [call_stalled workCap resultCap mat vec hv hm _ (by omega)]
    · rw [call_loading workCap resultCap mat vec hv hm k (by omega) hW (by omega)]
      exact ih (k + 1) (by omega) (by omega) (by omega)

/-- On a pool as constructed, whose sockets hold `workCap` requests and
`resultCap` replies, `PostWork` on a matrix with more than
`resultCap + 1 + workCap` rows in the block of worker 0 sleeps for ever in the
`send` of row `resultCap + 1 + workCap`. -/
theorem PostWork_stalls (workCap resultCap : Nat) (mat : Matrix) (vec : Vec)
    (hv : vec.length ≤ MAX_PROCESS_PAYLOAD)
    (hm : ∀ row ∈ mat, row.length ≤ MAX_PROCESS_PAYLOAD) (hW : 1 ≤ workCap)
    (hbig : resultCap + workCap + 2 ≤ mat.length / WORKER_NUMBER) :
    PostWork (WorkerPool.fresh workCap resultCap) mat vec
      = Except.error (Fault.blocked, stalled workCap resultCap mat vec) := by
  have hq : 1 * (mat.length / WORKER_NUMBER) ≤ mat.length := by
    rw [Nat.one_mul]
    exact Nat.div_le_self _ _
  have hrl := rowLoop_stalls workCap resultCap mat vec hv hm hW (mat.length / WORKER_NUMBER) 0
    (by omega) (by omega) (by omega)
  rw [loading_zero] at hrl
  have hb : PostWork.blockLoop mat vec mat.length (mat.length / WORKER_NUMBER) (7 + 1) 0
      (WorkerPool.fresh workCap resultCap)
      = Except.error (Fault.blocked, stalled workCap resultCap mat vec) := by
    have hq1 : mat.length / WORKER_NUMBER ≤ mat.length := Nat.div_le_self _ _
    rw [PostWork.blockLoop]
    simp only [Nat.zero_add, hq1, if_true, Nat.zero_mul, Nat.sub_zero, Nat.one_mul, hrl]
  have hb1 : PostWork.blockLoop mat vec mat.length (mat.length / WORKER_NUMBER) WORKER_NUMBER 0
      (WorkerPool.fresh workCap resultCap)
      = Except.error (Fault.blocked, stalled workCap resultCap mat vec) := hb
  simp only [PostWork, hb1]

theorem validInput_fits (mat : Matrix) (vec : Vec) (h : ValidInput mat vec) :
    ∀ row ∈ mat, row.length ≤ MAX_PROCESS_PAYLOAD := by
  intro row hrow
  rw [h.2.2.1 row hrow]
  exact h.2.2.2

/-- `Multiply` on a valid input with more than `resultCap + 1 + workCap` rows in
the block of worker 0 never returns: it sleeps in `PostWork`. -/
theorem Multiply_stalls (workCap resultCap : Nat) (mat : Matrix) (vec : Vec)
    (h : ValidInput mat vec) (hW : 1 ≤ workCap)
    (hbig : resultCap + workCap + 2 ≤ mat.length / WORKER_NUMBER) :
    Multiply (WorkerPool.fresh workCap resultCap) mat vec
      = Except.error (Fault.blocked, stalled workCap resultCap mat vec) := by
  have hp := PostWork_stalls workCap resultCap mat vec h.2.2.2 (validInput_fits mat vec h) hW hbig
  obtain ⟨hmat, hvec, hrows, _⟩ := h
  cases mat with
  | nil => exact absurd rfl hmat
  | cons row0 rest =>
    have hv1 : vec.length > 0 := List.length_pos.mpr hvec
    have hd : row0.length = vec.length := hrows row0 (List.mem_cons_self _ _)
    simp only [Multiply, hv1, if_true, hd, hp]

/-! ## Index safety of the distributor -/

theorem PostWork1_error (w : Worker) (row vec : Vec) (rowId : Nat) (f : Fault)
    (h : PostWork1 w row vec rowId = Except.error f) : f.isIndexFault = false := by
  unfold PostWork1 at h
  simp only at h
  split at h
  · cases h; rfl
  · split at h
    · cases h; rfl
    · split at h
      · cases h; rfl
      · cases h; rfl
      · split at h
        · cases h
        · cases h; rfl

theorem call_safe (mat : Matrix) (vec : Vec) (L workerId rowId : Nat) (pool : WorkerPool)
    (hlen : pool.m_workers.length = L) (hw : workerId < L) (hr : rowId < mat.length) :
    IndexSafe L (PostWork.call mat vec workerId rowId pool) := by
  have hget : pool.m_workers[workerId]? = some pool.m_workers[workerId] :=
    List.getElem?_eq_getElem (by omega)
  have hrow : mat[rowId]? = some mat[rowId] := List.getElem?_eq_getElem hr
  simp only [PostWork.call, hget, hrow]
  cases hp : PostWork1 pool.m_workers[workerId] mat[rowId] vec rowId with
  | error f => exact PostWork1_error _ _ _ _ f hp
  | ok w1 => simp [IndexSafe, hlen]

theorem rowLoop_safe (mat : Matrix) (vec : Vec) (L workerId : Nat) (hw : workerId < L)
    (n : Nat) :
    ∀ (rowId : Nat) (pool : WorkerPool), pool.m_workers.length = L →
      rowId + n ≤ mat.length →
      IndexSafe L (PostWork.rowLoop mat vec workerId n rowId pool) := by
  induction n with
  | zero => intro rowId pool hlen _; exact hlen
  | succ n ih =>
    intro rowId pool hlen hle
    have hc := call_safe mat vec L workerId rowId pool hlen hw (by omega)
    simp only [PostWork.rowLoop]
    cases hcall : PostWork.call mat vec workerId rowId pool with
    | error e => rw [hcall] at hc; exact hc
    | ok pool1 =>
      rw [hcall] at hc
      exact ih (rowId + 1) pool1 hc (by omega)

theorem blockLoop_safe (mat : Matrix) (vec : Vec) (L workload : Nat) (n : Nat) :
    ∀ (workerId : Nat) (pool : WorkerPool), pool.m_workers.length = L →
      workerId + n ≤ L → (workerId + n) * workload ≤ mat.length →
      IndexSafe L (PostWork.blockLoop mat vec mat.length workload n workerId pool) := by
  induction n with
  | zero => intro workerId pool hlen _ _; exact hlen
  | succ n ih =>
    intro workerId pool hlen hle hrows
    have hstop : (workerId + 1) * workload ≤ mat.length := by
      calc (workerId + 1) * workload ≤ (workerId + (n + 1)) * workload :=
            Nat.mul_le_mul_right _ (by omega)
        _ ≤ mat.length := hrows
    have hsub : workerId * workload + ((workerId + 1) * workload - workerId * workload)
        ≤ mat.length := by
      rw [Nat.add_mul, Nat.one_mul] at hstop ⊢
      omega
    have hr := rowLoop_safe mat vec L workerId (by omega)
      ((workerId + 1) * workload - workerId * workload) (workerId * workload) pool hlen hsub
    simp only [PostWork.blockLoop, hstop, if_true]
    cases hrl : PostWork.rowLoop mat vec workerId
        ((workerId + 1) * workload - workerId * workload) (workerId * workload) pool with
    | error e => rw [hrl] at hr; exact hr
    | ok pool1 =>
      rw [hrl] at hr
      exact ih (workerId + 1) pool1 hr (by omega)
        (by rw [show workerId + 1 + n = workerId + (n + 1) by omega]; exact hrows)

theorem remLoop_safe (mat : Matrix) (vec : Vec) (L workload : Nat) (n : Nat) :
    ∀ (i : Nat) (pool : WorkerPool), pool.m_workers.length = L →
      i + n ≤ L → workload * WORKER_NUMBER + i + n ≤ mat.length →
      IndexSafe L (PostWork.remLoop mat vec workload n i pool) := by
  induction n with
  | zero => intro i pool hlen _ _; exact hlen
  | succ n ih =>
    intro i pool hlen hle hrows
    have hc := call_safe mat vec L i (workload * WORKER_NUMBER + i) pool hlen (by omega)
      (by omega)
    simp only [PostWork.remLoop]
    cases hcall : PostWork.call mat vec i (workload * WORKER_NUMBER + i) pool with
    | error e => rw [hcall] at hc; exact hc
    | ok pool1 =>
      rw [hcall] at hc
      exact ih (i + 1) pool1 hc (by omega) (by omega)

theorem eosLoop_safe (L : Nat) (n : Nat) :
    ∀ (i : Nat) (pool : WorkerPool), pool.m_workers.length = L →
      IndexSafe L (PostWork.eosLoop n i pool) := by
  induction n with
  | zero => intro i pool hlen; exact hlen
  | succ n ih =>
    intro i pool hlen
    simp only [PostWork.eosLoop]
    cases hget : pool.m_workers[i]? with
    | none => exact hlen
    | some worker =>
      simp only
      cases hs : worker.send Work.eos with
      | asleep => rfl
      | sigpipe => rfl
      | returned res worker1 =>
        exact ih (i + 1) _ (by simp [hlen])

theorem PostWork_safe (pool : WorkerPool) (mat : Matrix) (vec : Vec)
    (hlen : pool.m_workers.length = WORKER_NUMBER) :
    IndexSafe WORKER_NUMBER (PostWork pool mat vec) := by
  have hW : 0 < WORKER_NUMBER := by decide
  have hmod : mat.length % WORKER_NUMBER < WORKER_NUMBER := Nat.mod_lt _ hW
  have hdm : mat.length / WORKER_NUMBER * WORKER_NUMBER + mat.length % WORKER_NUMBER
      = mat.length := by
    rw [Nat.mul_comm]; exact Nat.div_add_mod _ _
  have hb := blockLoop_safe mat vec WORKER_NUMBER (mat.length / WORKER_NUMBER) WORKER_NUMBER 0
    pool hlen (by omega) (by rw [Nat.zero_add]; exact Nat.mul_div_le _ _)
  simp only [PostWork]
  cases hbl : PostWork.blockLoop mat vec mat.length (mat.length / WORKER_NUMBER)
      WORKER_NUMBER 0 pool with
  | error e => rw [hbl] at hb; exact hb
  | ok pool1 =>
    rw [hbl] at hb
    have hr := remLoop_safe mat vec WORKER_NUMBER (mat.length / WORKER_NUMBER)
      (mat.length % WORKER_NUMBER) 0 pool1 hb (by omega) (by omega)
    simp only
    cases hrl : PostWork.remLoop mat vec (mat.length / WORKER_NUMBER)
        (mat.length % WORKER_NUMBER) 0 pool1 with
    | error e => rw [hrl] at hr; exact hr
    | ok pool2 =>
      rw [hrl] at hr
      exact eosLoop_safe WORKER_NUMBER _ 0 pool2 hr

theorem stalled_head (workCap resultCap : Nat) (mat : Matrix) (vec : Vec) :
    (stalled workCap resultCap mat vec).m_workers[0]?
      = some { Worker.fresh workCap resultCap with
          toWorker := (List.range' (resultCap + 1) workCap).map (rowWork mat vec),
          toPool := (List.range resultCap).map (rowResult mat vec),
          proc := ProcState.sending (rowResult mat vec resultCap) } := by
  have e : resultCap + 1 + workCap - (resultCap + 1) = workCap := by omega
  simp only [stalled, loading, List.getElem?_cons_zero, loaded_gt workCap resultCap mat vec
    (resultCap + 1 + workCap) (by omega), e]

theorem stalled_tail (workCap resultCap : Nat) (mat : Matrix) (vec : Vec) (i : Nat)
    (h1 : 1 ≤ i) (h2 : i < WORKER_NUMBER) :
    (stalled workCap resultCap mat vec).m_workers[i]? = some (Worker.fresh workCap resultCap) := by
  obtain ⟨j, rfl⟩ : ∃ j, i = j + 1 := ⟨i - 1, by omega⟩
  simp only [stalled, loading, List.getElem?_cons_succ]
  rw [List.getElem?_replicate]
  simp only [ite_eq_left_iff]
  omega

theorem stalled_mem (workCap resultCap : Nat) (mat : Matrix) (vec : Vec) (w : Worker)
    (h : w ∈ (stalled workCap resultCap mat vec).m_workers) :
    w = loaded workCap resultCap mat vec (resultCap + 1 + workCap) ∨
      w = Worker.fresh workCap resultCap := by
  simp only [stalled, loading, List.mem_cons] at h
  rcases h with h | h
  · exact Or.inl h
  · exact Or.inr (List.eq_of_mem_replicate h)

theorem stalled_inFlight (workCap resultCap : Nat) (mat : Matrix) (vec : Vec) :
    ((stalled workCap resultCap mat vec).m_workers.map Worker.inFlight).sum
      = resultCap + 1 + workCap := by
  have h0 : (Worker.fresh workCap resultCap).inFlight = 0 := rfl
  have h1 : (loaded workCap resultCap mat vec (resultCap + 1 + workCap)).inFlight
      = resultCap + 1 + workCap := by
    rw [loaded_gt _ _ _ _ _ (by omega)]
    simp [Worker.inFlight, Worker.fresh]
    omega
  simp only [stalled, loading, List.map_cons, List.sum_cons, List.map_replicate, h0, h1,
    List.sum_replicate, smul_eq_mul, Nat.mul_zero, Nat.add_zero]

theorem stalled_ne_fresh (workCap resultCap : Nat) (mat : Matrix) (vec : Vec) :
    stalled workCap resultCap mat vec ≠ WorkerPool.fresh workCap resultCap := by
  intro h
  have h1 := stalled_inFlight workCap resultCap mat vec
  rw [h] at h1
  have h0 : (Worker.fresh workCap resultCap).inFlight = 0 := rfl
  simp [WorkerPool.fresh, h0] at h1
  omega

theorem validInput_ones (n : Nat) (h : 0 < n) : ValidInput (List.replicate n [1]) [1] := by
  refine ⟨?_, by simp, ?_, by decide⟩
  · intro e
    have := congrArg List.length e
    simp at this
    omega
  · intro row hrow
    rw [List.eq_of_mem_replicate hrow]

/-! ## The row assignment -/

theorem flatMap_blocks (q n : Nat) :
    (List.range n).flatMap (fun i => List.range' (i * q) q) = List.range' 0 (n * q) := by
  induction n with
  | zero => simp
  | succ n ih =>
    rw [List.range_succ, List.flatMap_append, ih]
    simp only [List.flatMap_cons, List.flatMap_nil, List.append_nil]
    have h := List.range'_append_1 0 (n * q) q
    simp only [Nat.zero_add] at h
    rw [h]
    congr 1
    ring

theorem flatMap_leftover (c k n : Nat) :
    (List.range n).flatMap (fun i => if i < k then [c + i] else []) = List.range' c (min n k) := by
  induction n with
  | zero => simp
  | succ n ih =>
    rw [List.range_succ, List.flatMap_append, ih]
    simp only [List.flatMap_cons, List.flatMap_nil, List.append_nil]
    by_cases h : n < k
    · have e1 : min n k = n := by omega
      have e2 : min (n + 1) k = n + 1 := by omega
      rw [e1, e2, if_pos h, List.range'_concat]
      simp
    · have e1 : min n k = k := by omega
      have e2 : min (n + 1) k = k := by omega
      rw [e1, e2, if_neg h, List.append_nil]

/-- The rows sent by one `PostWork`, worker by worker, are a rearrangement of
`0, 1, ..., rows - 1`. -/
theorem allAssignedRows_perm (rows : Nat) :
    (allAssignedRows rows).Perm (List.range rows) := by
  have hW : 0 < WORKER_NUMBER := by decide
  have hmod : rows % WORKER_NUMBER < WORKER_NUMBER := Nat.mod_lt _ hW
  have hdm : WORKER_NUMBER * (rows / WORKER_NUMBER) + rows % WORKER_NUMBER = rows :=
    Nat.div_add_mod _ _
  unfold allAssignedRows
  have h := (List.flatMap_append_perm (List.range WORKER_NUMBER)
    (fun i => List.range' (i * (rows / WORKER_NUMBER)) (rows / WORKER_NUMBER))
    (fun i => if i < rows % WORKER_NUMBER then [rows / WORKER_NUMBER * WORKER_NUMBER + i]
      else [])).symm
  have e : (List.range WORKER_NUMBER).flatMap (assignedRows rows)
      = (List.range WORKER_NUMBER).flatMap (fun i =>
          List.range' (i * (rows / WORKER_NUMBER)) (rows / WORKER_NUMBER) ++
            (if i < rows % WORKER_NUMBER then [rows / WORKER_NUMBER * WORKER_NUMBER + i]
              else [])) := rfl
  rw [e]
  refine h.trans ?_
  rw [flatMap_blocks, flatMap_leftover]
  have e1 : min WORKER_NUMBER (rows % WORKER_NUMBER) = rows % WORKER_NUMBER := by omega
  rw [e1, List.range_eq_range']
  have h2 := List.range'_append_1 0 (WORKER_NUMBER * (rows / WORKER_NUMBER))
    (rows % WORKER_NUMBER)
  simp only [Nat.zero_add] at h2
  rw [Nat.mul_comm (rows / WORKER_NUMBER) WORKER_NUMBER, h2, Nat.add_comm, hdm]

theorem mem_allAssignedRows (rows r : Nat) : r ∈ allAssignedRows rows ↔ r < rows := by
  rw [(allAssignedRows_perm rows).mem_iff, List.mem_range]

theorem assignedRows_lt (rows i : Nat) (hi : i < WORKER_NUMBER) (r : Nat)
    (hr : r ∈ assignedRows rows i) : r < rows := by
  rw [← mem_allAssignedRows]
  unfold allAssignedRows
  rw [List.mem_flatMap]
  exact ⟨i, List.mem_range.mpr hi, hr⟩

/-! ## The collector -/

theorem writeRows_length (mat : Matrix) (vec : Vec) (rs : List Nat) :
    ∀ out : Vec, (writeRows mat vec out rs).length = out.length := by
  induction rs with
  | nil => intro out; rfl
  | cons r rs ih =>
    intro out
    simp only [writeRows, List.foldl_cons] at ih ⊢
    rw [ih, List.length_set]

theorem writeRows_append (mat : Matrix) (vec : Vec) (out : Vec) (a b : List Nat) :
    writeRows mat vec out (a ++ b) = writeRows mat vec (writeRows mat vec out a) b := by
  simp [writeRows, List.foldl_append]

theorem writeRows_getElem? (mat : Matrix) (vec : Vec) (rs : List Nat) :
    ∀ (out : Vec) (r : Nat), r < out.length →
      (writeRows mat vec out rs)[r]?
        = if r ∈ rs then some (mulAcc64 ((mat[r]?).getD []) vec) else out[r]? := by
  induction rs with
  | nil => intro out r _; simp [writeRows]
  | cons x xs ih =>
    intro out r hr
    have h := ih (out.set x (mulAcc64 ((mat[x]?).getD []) vec)) r (by simpa using hr)
    simp only [writeRows, List.foldl_cons] at h ⊢
    rw [h]
    by_cases hx : r ∈ xs
    · simp [hx]
    · by_cases hrx : x = r
      · subst hrx
        simp [hx, hr]
      · have hne : ¬ r = x := fun e => hrx e.symm
        simp [hx, List.getElem?_set_ne hrx, hne]

theorem writeRows_all (mat : Matrix) (vec : Vec) :
    writeRows mat vec (List.replicate mat.length 0) (allAssignedRows mat.length)
      = mat.map (fun row => mulAcc64 row vec) := by
  apply List.ext_getElem?
  intro r
  by_cases hr : r < mat.length
  · rw [writeRows_getElem? mat vec _ _ r (by simpa using hr)]
    simp [mem_allAssignedRows, hr]
  · rw [List.getElem?_eq_none (by rw [writeRows_length]; simpa using hr),
      List.getElem?_eq_none (by simpa using hr)]

/-! ## A matrix that fits the sockets -/

theorem answered_getElem? (workCap resultCap : Nat) (f : Nat → List Result) (i : Nat)
    (hi : i < WORKER_NUMBER) :
    (answered workCap resultCap f).m_workers[i]?
      = some (Worker.answered workCap resultCap (f i)) := by
  simp [answered, List.getElem?_map, List.getElem?_range hi]

theorem answered_length (workCap resultCap : Nat) (f : Nat → List Result) :
    (answered workCap resultCap f).m_workers.length = WORKER_NUMBER := by
  simp [answered]

theorem answered_congr (workCap resultCap : Nat) (f g : Nat → List Result)
    (h : ∀ i, i < WORKER_NUMBER → f i = g i) :
    answered workCap resultCap f = answered workCap resultCap g := by
  simp only [answered, WorkerPool.mk.injEq]
  apply List.map_congr_left
  intro i hi
  rw [h i (List.mem_range.mp hi)]

theorem answered_nil (workCap resultCap : Nat) :
    answered workCap resultCap (fun _ => []) = WorkerPool.fresh workCap resultCap := by
  simp only [answered, WorkerPool.fresh, WorkerPool.mk.injEq]
  apply List.ext_getElem?
  intro i
  by_cases hi : i < WORKER_NUMBER
  · rw [List.getElem?_map, List.getElem?_range hi, List.getElem?_replicate, if_pos hi]
    rfl
  · rw [List.getElem?_eq_none (by simpa using hi), List.getElem?_eq_none (by simpa using hi)]

theorem answered_set (workCap resultCap : Nat) (f : Nat → List Result) (i : Nat)
    (hi : i < WORKER_NUMBER) (g : List Result) :
    ({ m_workers := (answered workCap resultCap f).m_workers.set i
        (Worker.answered workCap resultCap g) } : WorkerPool)
      = answered workCap resultCap (fun j => if j = i then g else f j) := by
  simp only [answered, WorkerPool.mk.injEq]
  apply List.ext_getElem?
  intro j
  by_cases hj : i = j
  · subst hj
    rw [List.getElem?_set_self (by simpa using hi), List.getElem?_map, List.getElem?_range hi]
    simp
  · rw [List.getElem?_set_ne hj]
    have hji : ¬ j = i := fun h => hj h.symm
    by_cases hj8 : j < WORKER_NUMBER
    · rw [List.getElem?_map, List.getElem?_range hj8, List.getElem?_map,
        List.getElem?_range hj8]
      simp [hji]
    · rw [List.getElem?_eq_none (by simpa using hj8), List.getElem?_eq_none (by simpa using hj8)]

theorem schedule_answered (workCap resultCap : Nat) (rs : List Result) :
    (Worker.answered workCap resultCap rs).schedule = Worker.answered workCap resultCap rs := by
  simp [Worker.schedule, Worker.answered, Worker.fresh, WorkerProc]

theorem send_answered (workCap resultCap : Nat) (rs : List Result) (work : Work) (res : Result)
    (hp : ∀ w : Worker, WorkerProc.pass (RecvRes.data work) w = w.childSend res)
    (hW : 1 ≤ workCap) (hroom : rs.length < resultCap) :
    (Worker.answered workCap resultCap rs).send work
      = SendOutcome.returned sizeofWork (Worker.answered workCap resultCap (rs ++ [res])) := by
  unfold Worker.send
  simp only [schedule_answered]
  simp [Worker.answered, Worker.fresh, Worker.schedule, WorkerProc, hp, Worker.childSend, hroom]
  omega

theorem call_answered (workCap resultCap : Nat) (mat : Matrix) (vec : Vec)
    (hv : vec.length ≤ MAX_PROCESS_PAYLOAD)
    (hm : ∀ row ∈ mat, row.length ≤ MAX_PROCESS_PAYLOAD) (hW : 1 ≤ workCap)
    (f : Nat → List Result) (workerId rowId : Nat) (hw : workerId < WORKER_NUMBER)
    (hr : rowId < mat.length) (hroom : (f workerId).length < resultCap) :
    PostWork.call mat vec workerId rowId (answered workCap resultCap f)
      = Except.ok (answered workCap resultCap
          (fun j => if j = workerId then f j ++ [rowResult mat vec rowId] else f j)) := by
  obtain ⟨hrow, hfit⟩ := row_fits_of_mem mat hm rowId hr
  have hs := send_answered workCap resultCap (f workerId) (rowWork mat vec rowId)
    (rowResult mat vec rowId) (pass_rowWork mat vec hv hm rowId hr) hW hroom
  unfold rowWork at hs
  unfold PostWork.call
  rw [answered_getElem? workCap resultCap f workerId hw, hrow]
  simp only
  rw [PostWork1_send _ _ vec rowId hfit hv, hs]
  simp only [sizeofWork_pos, if_true]
  rw [answered_set workCap resultCap f workerId hw]
  congr 2
  funext j
  by_cases hj : j = workerId
  · simp [hj]
  · simp [hj]

theorem rowLoop_answered (workCap resultCap : Nat) (mat : Matrix) (vec : Vec)
    (hv : vec.length ≤ MAX_PROCESS_PAYLOAD)
    (hm : ∀ row ∈ mat, row.length ≤ MAX_PROCESS_PAYLOAD) (hW : 1 ≤ workCap)
    (workerId : Nat) (hw : workerId < WORKER_NUMBER) (n : Nat) :
    ∀ (rowId : Nat) (f : Nat → List Result), rowId + n ≤ mat.length →
      (f workerId).length + n ≤ resultCap →
      PostWork.rowLoop mat vec workerId n rowId (answered workCap resultCap f)
        = Except.ok (answered workCap resultCap (fun j =>
            if j = workerId then f j ++ (List.range' rowId n).map (rowResult mat vec)
            else f j)) := by
  induction n with
  | zero =>
    intro rowId f _ _
    simp only [PostWork.rowLoop, List.range'_zero, List.map_nil, List.append_nil, ite_self]
  | succ n ih =>
    intro rowId f hle hcap
    simp only [PostWork.rowLoop]
    rw [call_answered workCap resultCap mat vec hv hm hW f workerId rowId hw (by omega)
      (by omega)]
    simp only
    rw [ih (rowId + 1) _ (by omega) (by simp; omega)]
    congr 2
    funext j
    by_cases hj : j = workerId
    · simp [hj, List.range'_succ]
    · simp [hj]

theorem blockLoop_answered (workCap resultCap : Nat) (mat : Matrix) (vec : Vec)
    (hv : vec.length ≤ MAX_PROCESS_PAYLOAD)
    (hm : ∀ row ∈ mat, row.length ≤ MAX_PROCESS_PAYLOAD) (hW : 1 ≤ workCap)
    (workload : Nat) (n : Nat) :
    ∀ (workerId : Nat) (f : Nat → List Result), workerId + n ≤ WORKER_NUMBER →
      (workerId + n) * workload ≤ mat.length →
      (∀ j, workerId ≤ j → j < workerId + n → (f j).length + workload ≤ resultCap) →
      PostWork.blockLoop mat vec mat.length workload n workerId (answered workCap resultCap f)
        = Except.ok (answered workCap resultCap (fun j =>
            if workerId ≤ j ∧ j < workerId + n then
              f j ++ (List.range' (j * workload) workload).map (rowResult mat vec)
            else f j)) := by
  induction n with
  | zero =>
    intro workerId f _ _ _
    simp only [PostWork.blockLoop]
    congr 2
    funext j
    have : ¬ (workerId ≤ j ∧ j < workerId) := by omega
    simp [this]
  | succ n ih =>
    intro workerId f hlen hrows hcap
    have hstop : (workerId + 1) * workload ≤ mat.length := by
      calc (workerId + 1) * workload ≤ (workerId + (n + 1)) * workload :=
            Nat.mul_le_mul_right _ (by omega)
        _ ≤ mat.length := hrows
    have hsub : (workerId + 1) * workload - workerId * workload = workload := by
      rw [Nat.add_mul, Nat.one_mul]
      omega
    simp only [PostWork.blockLoop, hstop, if_true, hsub]
    rw [rowLoop_answered workCap resultCap mat vec hv hm hW workerId (by omega) workload _ f
      (by rw [Nat.add_mul, Nat.one_mul] at hstop; exact hstop)
      (hcap workerId (Nat.le_refl _) (by omega))]
    simp only
    rw [ih (workerId + 1) _ (by omega)
      (by rw [show workerId + 1 + n = workerId + (n + 1) by omega]; exact hrows)]
    · congr 2
      funext j
      by_cases h1 : j = workerId
      · subst h1
        have a : ¬ (j + 1 ≤ j ∧ j < j + 1 + n) := by omega
        have b : j ≤ j ∧ j < j + (n + 1) := by omega
        simp [a, b]
      · by_cases h2 : workerId + 1 ≤ j ∧ j < workerId + 1 + n
        · have b : workerId ≤ j ∧ j < workerId + (n + 1) := by omega
          simp [h1, h2, b]
        · have b : ¬ (workerId ≤ j ∧ j < workerId + (n + 1)) := by omega
          simp [h1, h2, b]
    · intro j hj1 hj2
      have h1 : ¬ j = workerId := by omega
      simp only [h1, if_false]
      exact hcap j (by omega) (by omega)

theorem remLoop_answered (workCap resultCap : Nat) (mat : Matrix) (vec : Vec)
    (hv : vec.length ≤ MAX_PROCESS_PAYLOAD)
    (hm : ∀ row ∈ mat, row.length ≤ MAX_PROCESS_PAYLOAD) (hW : 1 ≤ workCap)
    (workload : Nat) (n : Nat) :
    ∀ (i : Nat) (f : Nat → List Result), i + n ≤ WORKER_NUMBER →
      workload * WORKER_NUMBER + i + n ≤ mat.length →
      (∀ j, i ≤ j → j < i + n → (f j).length < resultCap) →
      PostWork.remLoop mat vec workload n i (answered workCap resultCap f)
        = Except.ok (answered workCap resultCap (fun j =>
            if i ≤ j ∧ j < i + n then
              f j ++ [rowResult mat vec (workload * WORKER_NUMBER + j)]
            else f j)) := by
  induction n with
  | zero =>
    intro i f _ _ _
    simp only [PostWork.remLoop]
    congr 2
    funext j
    have : ¬ (i ≤ j ∧ j < i) := by omega
    simp [this]
  | succ n ih =>
    intro i f hlen hrows hcap
    simp only [PostWork.remLoop]
    rw [call_answered workCap resultCap mat vec hv hm hW f i _ (by omega) (by omega)
      (hcap i (Nat.le_refl _) (by omega))]
    simp only
    rw [ih (i + 1) _ (by omega) (by omega)]
    · congr 2
      funext j
      by_cases h1 : j = i
      · subst h1
        have a : ¬ (j + 1 ≤ j ∧ j < j + 1 + n) := by omega
        have b : j ≤ j ∧ j < j + (n + 1) := by omega
        simp [a, b]
      · by_cases h2 : i + 1 ≤ j ∧ j < i + 1 + n
        · have b : i ≤ j ∧ j < i + (n + 1) := by omega
          simp [h1, h2, b]
        · have b : ¬ (i ≤ j ∧ j < i + (n + 1)) := by omega
          simp [h1, h2, b]
    · intro j hj1 hj2
      have h1 : ¬ j = i := by omega
      simp only [h1, if_false]
      exact hcap j (by omega) (by omega)

theorem eosLoop_answered (workCap resultCap : Nat) (hW : 1 ≤ workCap) (n : Nat) :
    ∀ (i : Nat) (f : Nat → List Result), i + n ≤ WORKER_NUMBER →
      (∀ j, i ≤ j → j < i + n → (f j).length < resultCap) →
      PostWork.eosLoop n i (answered workCap resultCap f)
        = Except.ok (answered workCap resultCap (fun j =>
            if i ≤ j ∧ j < i + n then f j ++ [Result.eos] else f j)) := by
  induction n with
  | zero =>
    intro i f _ _
    simp only [PostWork.eosLoop]
    congr 2
    funext j
    have : ¬ (i ≤ j ∧ j < i) := by omega
    simp [this]
  | succ n ih =>
    intro i f hlen hcap
    have hs := send_answered workCap resultCap (f i) Work.eos Result.eos pass_eos hW
      (hcap i (Nat.le_refl _) (by omega))
    simp only [PostWork.eosLoop, answered_getElem? workCap resultCap f i (by omega), hs,
      answered_set workCap resultCap f i (by omega)]
    rw [ih (i + 1) _ (by omega)]
    · congr 2
      funext j
      by_cases h1 : j = i
      · subst h1
        have a : ¬ (j + 1 ≤ j ∧ j < j + 1 + n) := by omega
        have b : j ≤ j ∧ j < j + (n + 1) := by omega
        simp [a, b]
      · by_cases h2 : i + 1 ≤ j ∧ j < i + 1 + n
        · have b : i ≤ j ∧ j < i + (n + 1) := by omega
          simp [h1, h2, b]
        · have b : ¬ (i ≤ j ∧ j < i + (n + 1)) := by omega
          simp [h1, h2, b]
    · intro j hj1 hj2
      have h1 : ¬ j = i := by omega
      simp only [h1, if_false]
      exact hcap j (by omega) (by omega)

/-- On a pool as constructed whose sockets hold at least one request and at
least `R / 8 + 2` replies, `PostWork` returns, and every worker has answered
its whole request stream: its reply stream waits to be collected. -/
theorem PostWork_answered (workCap resultCap : Nat) (mat : Matrix) (vec : Vec)
    (hv : vec.length ≤ MAX_PROCESS_PAYLOAD)
    (hm : ∀ row ∈ mat, row.length ≤ MAX_PROCESS_PAYLOAD) (hW : 1 ≤ workCap)
    (hfits : mat.length / WORKER_NUMBER + 2 ≤ resultCap) :
    PostWork (WorkerPool.fresh workCap resultCap) mat vec
      = Except.ok (answered workCap resultCap (replyStream mat vec)) := by
  have hW8 : 0 < WORKER_NUMBER := by decide
  have hmod : mat.length % WORKER_NUMBER < WORKER_NUMBER := Nat.mod_lt _ hW8
  have hdm : mat.length / WORKER_NUMBER * WORKER_NUMBER + mat.length % WORKER_NUMBER
      = mat.length := by
    rw [Nat.mul_comm]; exact Nat.div_add_mod _ _
  have h1 := blockLoop_answered workCap resultCap mat vec hv hm hW (mat.length / WORKER_NUMBER)
    WORKER_NUMBER 0 (fun _ => []) (by omega)
    (by rw [Nat.zero_add]; exact Nat.mul_div_le _ _) (by intro j _ _; simp; omega)
  rw [answered_nil] at h1
  simp only [PostWork, h1]
  rw [remLoop_answered workCap resultCap mat vec hv hm hW _ (mat.length % WORKER_NUMBER) 0 _
    (by omega) (by omega) (by
      intro j _ _
      split
      · rw [List.length_append, List.length_map, List.length_range', List.length_nil]
        omega
      · rw [List.length_nil]
        omega)]
  simp only [answered_length]
  rw [eosLoop_answered workCap resultCap hW WORKER_NUMBER 0 _ (by omega) (by
      intro j _ _
      split
      · split
        · rw [List.length_append, List.length_append, List.length_map, List.length_range',
            List.length_nil, List.length_singleton]
          omega
        · rw [List.length_append, List.length_nil, List.length_singleton]
          omega
      · split
        · rw [List.length_append, List.length_map, List.length_range', List.length_nil]
          omega
        · rw [List.length_nil]
          omega)]
  congr 1
  apply answered_congr
  intro j hj
  have hj8 : 0 ≤ j ∧ j < 0 + WORKER_NUMBER := by omega
  simp only [hj8, and_self, if_true, List.nil_append, replyStream, assignedRows,
    Nat.zero_le, true_and, Nat.zero_add]
  by_cases hr : j < mat.length % WORKER_NUMBER
  · simp [hr, hj]
  · simp [hr, hj]

theorem recv_answered (workCap resultCap : Nat) (res : Result) (rest : List Result) :
    (Worker.answered workCap resultCap (res :: rest)).recv
      = Except.ok (res, Worker.answered workCap resultCap rest) := by
  unfold Worker.recv
  simp only [schedule_answered]
  rfl

theorem drain_answered (workCap resultCap : Nat) (mat : Matrix) (vec : Vec) (rs : List Nat) :
    ∀ (fuel : Nat) (out : Vec), rs.length + 1 ≤ fuel → (∀ r ∈ rs, r < out.length) →
      CollectResults.drain fuel
          (Worker.answered workCap resultCap (rs.map (rowResult mat vec) ++ [Result.eos])) out
        = Except.ok (writeRows mat vec out rs, Worker.fresh workCap resultCap) := by
  induction rs with
  | nil =>
    intro fuel out hfuel _
    obtain ⟨n, rfl⟩ : ∃ n, fuel = n + 1 := ⟨fuel - 1, by simp at hfuel; omega⟩
    simp only [List.map_nil, List.nil_append, CollectResults.drain, recv_answered]
    rfl
  | cons r rs ih =>
    intro fuel out hfuel h
    obtain ⟨n, rfl⟩ : ∃ n, fuel = n + 1 := ⟨fuel - 1, by simp at hfuel; omega⟩
    have hr : r < out.length := h r (List.mem_cons_self _ _)
    have h1 := ih n (out.set r (mulAcc64 ((mat[r]?).getD []) vec))
      (by simp at hfuel ⊢; omega)
      (fun x hx => by simpa using h x (List.mem_cons_of_mem _ hx))
    simp only [List.map_cons, List.cons_append, CollectResults.drain, recv_answered]
    simp only [rowResult, Int.toNat_ofNat, hr, and_true, Int.natCast_nonneg, if_true, writeRows,
      List.foldl_cons]
    exact h1

theorem worker_answered (workCap resultCap : Nat) (mat : Matrix) (vec : Vec) (i : Nat)
    (hi : i < WORKER_NUMBER) (out : Vec) (hout : out.length = mat.length) :
    CollectResults.worker (Worker.answered workCap resultCap (replyStream mat vec i)) out
      = Except.ok (writeRows mat vec out (assignedRows mat.length i),
          Worker.fresh workCap resultCap) := by
  unfold CollectResults.worker replyStream
  apply drain_answered
  · simp [Worker.inFlight, Worker.answered, Worker.fresh]
  · intro r hr
    rw [hout]
    exact assignedRows_lt mat.length i hi r hr

theorem collecting_zero (workCap resultCap : Nat) (mat : Matrix) (vec : Vec) :
    collecting workCap resultCap mat vec 0 = answered workCap resultCap (replyStream mat vec) := by
  simp [collecting]

theorem collecting_all (workCap resultCap : Nat) (mat : Matrix) (vec : Vec) :
    collecting workCap resultCap mat vec WORKER_NUMBER = WorkerPool.fresh workCap resultCap := by
  unfold collecting
  rw [answered_congr workCap resultCap _ (fun _ => []), answered_nil]
  intro i hi
  simp [hi]

theorem collecting_getElem? (workCap resultCap : Nat) (mat : Matrix) (vec : Vec) (i : Nat)
    (hi : i < WORKER_NUMBER) :
    (collecting workCap resultCap mat vec i).m_workers[i]?
      = some (Worker.answered workCap resultCap (replyStream mat vec i)) := by
  simp [collecting, answered_getElem? _ _ _ i hi]

theorem collecting_set (workCap resultCap : Nat) (mat : Matrix) (vec : Vec) (i : Nat)
    (hi : i < WORKER_NUMBER) :
    ({ m_workers := (collecting workCap resultCap mat vec i).m_workers.set i
        (Worker.fresh workCap resultCap) } : WorkerPool)
      = collecting workCap resultCap mat vec (i + 1) := by
  have e : Worker.fresh workCap resultCap = Worker.answered workCap resultCap [] := rfl
  unfold collecting
  rw [e, answered_set workCap resultCap _ i hi]
  apply answered_congr
  intro j _
  by_cases h1 : j = i
  · subst h1
    simp
  · by_cases h2 : j < i
    · have h3 : j < i + 1 := by omega
      simp [h1, h2, h3]
    · have h3 : ¬ j < i + 1 := by omega
      simp [h1, h2, h3]

theorem loop_collecting (workCap resultCap : Nat) (mat : Matrix) (vec : Vec) (n : Nat) :
    ∀ (i : Nat) (out : Vec), i + n ≤ WORKER_NUMBER → out.length = mat.length →
      CollectResults.loop n i (collecting workCap resultCap mat vec i) out
        = Except.ok (writeRows mat vec out
            ((List.range' i n).flatMap (assignedRows mat.length)),
            collecting workCap resultCap mat vec (i + n)) := by
  induction n with
  | zero => intro i out _ _; rfl
  | succ n ih =>
    intro i out hin hout
    have hi : i < WORKER_NUMBER := by omega
    simp only [CollectResults.loop, collecting_getElem? workCap resultCap mat vec i hi,
      worker_answered workCap resultCap mat vec i hi out hout,
      collecting_set workCap resultCap mat vec i hi]
    rw [ih (i + 1) _ (by omega) (by rw [writeRows_length]; exact hout)]
    rw [List.range'_succ, List.flatMap_cons, writeRows_append]
    have e : i + 1 + n = i + (n + 1) := by omega
    rw [e]

/-- `CollectResults` on the pool in which every worker has answered its whole
request stream. -/
theorem CollectResults_answered (workCap resultCap : Nat) (mat : Matrix) (vec : Vec) :
    CollectResults (answered workCap resultCap (replyStream mat vec)) mat.length
      = Except.ok (mat.map (fun row => mulAcc64 row vec), WorkerPool.fresh workCap resultCap) := by
  unfold CollectResults
  rw [answered_length, ← collecting_zero,
    loop_collecting workCap resultCap mat vec WORKER_NUMBER 0 _ (by omega) (by simp)]
  rw [Nat.zero_add, collecting_all, ← List.range_eq_range']
  have e : (List.range WORKER_NUMBER).flatMap (assignedRows mat.length)
      = allAssignedRows mat.length := rfl
  rw [e, writeRows_all]

/-- `Multiply` on a pool as constructed whose sockets hold at least one request
and at least `R / 8 + 2` replies, for a valid input: it returns the 64-bit dot
products and leaves the pool as it found it. -/
theorem Multiply_fits (workCap resultCap : Nat) (mat : Matrix) (vec : Vec)
    (h : ValidInput mat vec) (hW : 1 ≤ workCap)
    (hfits : mat.length / WORKER_NUMBER + 2 ≤ resultCap) :
    Multiply (WorkerPool.fresh workCap resultCap) mat vec
      = Except.ok (mat.map (fun row => mulAcc64 row vec), WorkerPool.fresh workCap resultCap) := by
  have hp := PostWork_answered workCap resultCap mat vec h.2.2.2 (validInput_fits mat vec h) hW
    hfits
  have hcr := CollectResults_answered workCap resultCap mat vec
  obtain ⟨hmat, hvec, hrows, _⟩ := h
  cases mat with
  | nil => exact absurd rfl hmat
  | cons row0 rest =>
    have hv1 : vec.length > 0 := List.length_pos.mpr hvec
    have hd : row0.length = vec.length := hrows row0 (List.mem_cons_self _ _)
    simp only [Multiply, hv1, if_true, hd, hp]
    exact hcr

/-! ## The fuel of the collector loop -/

theorem childSend_cases (w : Worker) (res : Result) :
    ((w.childSend res).proc = ProcState.running ∧
        (w.childSend res).toPool.length = w.toPool.length + 1 ∧
        (w.childSend res).toWorker = w.toWorker) ∨
      ((w.childSend res).proc ≠ ProcState.running ∧
        (w.childSend res).inFlight ≤ w.toWorker.length + w.toPool.length + 1) := by
  unfold Worker.childSend
  by_cases h1 : w.fdOpen = false
  · right
    simp [h1, Worker.inFlight]
  · by_cases h2 : w.toPool.length < w.resultCap
    · left
      simp [h1, h2]
    · right
      simp [h1, h2, Worker.inFlight]

theorem pass_cases (r : RecvRes) (w : Worker) :
    ((WorkerProc.pass r w).proc = ProcState.running ∧
        (WorkerProc.pass r w).toPool.length = w.toPool.length + 1 ∧
        (WorkerProc.pass r w).toWorker = w.toWorker) ∨
      ((WorkerProc.pass r w).proc ≠ ProcState.running ∧
        (WorkerProc.pass r w).inFlight ≤ w.toWorker.length + w.toPool.length + 1) := by
  unfold WorkerProc.pass
  split
  · right
    simp [Worker.inFlight]
  · split
    · exact childSend_cases w _
    · split
      · exact childSend_cases w _
      · right
        simp [Worker.inFlight]

theorem WorkerProc_inFlight (queue : List Work) :
    ∀ w : Worker, w.proc = ProcState.running →
      (WorkerProc queue w).inFlight ≤ queue.length + w.toPool.length := by
  induction queue with
  | nil =>
    intro w hrun
    unfold WorkerProc
    by_cases h : w.fdOpen = true
    · simp [h, Worker.inFlight, hrun]
    · simp [h, WorkerProc.pass, ReadWork, Worker.inFlight]
  | cons work rest ih =>
    intro w _
    unfold WorkerProc
    simp only
    rcases pass_cases (RecvRes.data work) { w with toWorker := rest } with ⟨h1, h2, _⟩ | ⟨h1, h2⟩
    · rw [h1]
      simp only
      have := ih (WorkerProc.pass (RecvRes.data work) { w with toWorker := rest }) h1
      rw [h2] at this
      simp only [List.length_cons] at this ⊢
      omega
    · have hgoal : (WorkerProc.pass (RecvRes.data work) { w with toWorker := rest }).inFlight
          ≤ (work :: rest).length + w.toPool.length := by
        simp only [List.length_cons] at h2 ⊢
        omega
      cases hp : (WorkerProc.pass (RecvRes.data work) { w with toWorker := rest }).proc with
      | running => exact absurd hp h1
      | sending _ => simpa [hp] using hgoal
      | exited _ => simpa [hp] using hgoal
      | killed _ => simpa [hp] using hgoal
      | undefined => simpa [hp] using hgoal

theorem schedule_inFlight (w : Worker) : w.schedule.inFlight ≤ w.inFlight := by
  unfold Worker.schedule
  cases hp : w.proc with
  | running =>
    simp only
    have := WorkerProc_inFlight w.toWorker w hp
    simp only [Worker.inFlight, hp] at this ⊢
    omega
  | sending result =>
    simp only
    have hw : w.inFlight = w.toWorker.length + w.toPool.length + 1 := by
      simp [Worker.inFlight, hp]
    by_cases hc : w.fdOpen = false ∨ w.toPool.length < w.resultCap
    · rw [if_pos hc]
      rcases childSend_cases w result with ⟨h1, h2, h3⟩ | ⟨h1, h2⟩
      · simp only [h1]
        have hwp := WorkerProc_inFlight (w.childSend result).toWorker (w.childSend result) h1
        have e1 : (w.childSend result).toWorker.length = w.toWorker.length := by rw [h3]
        omega
      · cases hq : (w.childSend result).proc with
        | running => exact absurd hq h1
        | sending _ => simp only; omega
        | exited _ => simp only; omega
        | killed _ => simp only; omega
        | undefined => simp only; omega
    · rw [if_neg hc]
  | exited _ => exact Nat.le_refl _
  | killed _ => exact Nat.le_refl _
  | undefined => exact Nat.le_refl _

theorem recv_inFlight (w w1 : Worker) (res : Result) (h : w.recv = Except.ok (res, w1)) :
    w1.inFlight + 1 ≤ w.inFlight := by
  have hs := schedule_inFlight w
  unfold Worker.recv at h
  simp only at h
  split at h
  · cases h
  · split at h
    · cases h
      rename_i res0 rest hq
      simp only [Worker.inFlight, hq, List.length_cons] at hs ⊢
      omega
    · split at h <;> cases h

/-- The collector loop never runs out of fuel: with more fuel than there are
messages in the socket pair, one more unit of fuel changes nothing. -/
theorem drain_fuel (fuel : Nat) :
    ∀ (w : Worker) (vec : Vec), w.inFlight < fuel →
      CollectResults.drain (fuel + 1) w vec = CollectResults.drain fuel w vec := by
  induction fuel with
  | zero => intro w vec h; omega
  | succ n ih =>
    intro w vec h
    rw [CollectResults.drain]
    conv_rhs => rw [CollectResults.drain]
    cases hr : w.recv with
    | error f => rfl
    | ok p =>
      obtain ⟨res, w1⟩ := p
      have hlt := recv_inFlight w w1 res hr
      simp only
      cases res.type with
      | EOS => rfl
      | Value =>
        simp only
        split
        · exact ih w1 _ (by omega)
        · rfl

theorem Multiply_single_oversized (workCap resultCap : Nat) (row vec : Vec)
    (h : MAX_PROCESS_PAYLOAD < row.length) (hvec : row.length = vec.length) :
    Multiply (WorkerPool.fresh workCap resultCap) [row] vec
      = Except.error (Fault.undefinedBehaviour Undefined.memcpyOverflow,
          WorkerPool.fresh workCap resultCap) := by
  have hm : memcpy (List.replicate MAX_PROCESS_PAYLOAD 0) row = none := memcpy_zero_none _ h
  have h1 : ∀ w : Worker, PostWork1 w row vec 0
      = Except.error (Fault.undefinedBehaviour Undefined.memcpyOverflow) := by
    intro w
    simp only [PostWork1, Work.zero, hm]
  have hw : (WorkerPool.fresh workCap resultCap).m_workers[0]?
      = some (Worker.fresh workCap resultCap) := rfl
  have hb : ∀ n i, PostWork.blockLoop [row] vec 1 0 n i (WorkerPool.fresh workCap resultCap)
      = Except.ok (WorkerPool.fresh workCap resultCap) := by
    intro n
    induction n with
    | zero => intro i; rfl
    | succ n ih =>
      intro i
      simp only [PostWork.blockLoop, Nat.mul_zero, Nat.zero_le, if_true, Nat.sub_self,
        PostWork.rowLoop, ih]
  have hpos : vec.length > 0 := by omega
  have hd : 1 / WORKER_NUMBER = 0 := by decide
  have hr : 1 % WORKER_NUMBER = 1 := by decide
  simp only [Multiply, hpos, if_true, hvec, PostWork, List.length_singleton, hd, hr, hb,
    PostWork.remLoop, PostWork.call, Nat.zero_mul, Nat.zero_add, hw, List.getElem?_cons_zero, h1]

/-! ## Properties of the specification -/

/-- C1 at a large input: on a pool as constructed whose sockets hold `workCap`
requests and `resultCap` replies, `Multiply` on a valid input with more than
`resultCap + 1 + workCap` rows in the block of worker 0 returns no vector.  It
sleeps for ever in a `send` of `PostWork`, with worker 0 asleep in the `send`
of a reply that nobody collects. -/
theorem Multiply_large_never_returns (workCap resultCap : Nat) (mat : Matrix) (vec : Vec)
    (h : ValidInput mat vec) (hW : 1 ≤ workCap)
    (hbig : resultCap + workCap + 2 ≤ mat.length / WORKER_NUMBER) :
    Multiply (WorkerPool.fresh workCap resultCap) mat vec
        = Except.error (Fault.blocked, stalled workCap resultCap mat vec) ∧
      ∀ res pool1,
        Multiply (WorkerPool.fresh workCap resultCap) mat vec ≠ Except.ok (res, pool1) := by
  have hs := Multiply_stalls workCap resultCap mat vec h hW hbig
  refine ⟨hs, ?_⟩
  intro res pool1 hc
  rw [hs] at hc
  cases hc

/-- C1 at 3000 rows `[1]` and the vector `[1]`, with sockets that hold 64
requests and 256 replies. -/
theorem Multiply_large_never_returns_witness :
    Multiply (WorkerPool.fresh 64 256) (List.replicate 3000 [1]) [1]
      = Except.error (Fault.blocked, stalled 64 256 (List.replicate 3000 [1]) [1]) :=
  (Multiply_large_never_returns 64 256 (List.replicate 3000 [1]) [1]
    (validInput_ones 3000 (by decide)) (by decide)
    (by rw [List.length_replicate]; decide)).1

/-- C2 at a large input: `PostWork` on a matrix with more than
`resultCap + 1 + workCap` rows in the block of worker 0 sleeps for ever in a
`send`; by then it has sent `resultCap + 1 + workCap` rows, fewer than the
matrix has, all of them to worker 0, and the other workers have been sent
nothing. -/
theorem PostWork_large_stalls (workCap resultCap : Nat) (mat : Matrix) (vec : Vec)
    (h : ValidInput mat vec) (hW : 1 ≤ workCap)
    (hbig : resultCap + workCap + 2 ≤ mat.length / WORKER_NUMBER) :
    PostWork (WorkerPool.fresh workCap resultCap) mat vec
        = Except.error (Fault.blocked, stalled workCap resultCap mat vec) ∧
      ((stalled workCap resultCap mat vec).m_workers.map Worker.inFlight).sum
        = resultCap + 1 + workCap ∧
      resultCap + 1 + workCap < mat.length ∧
      ∀ i, 1 ≤ i → i < WORKER_NUMBER →
        (stalled workCap resultCap mat vec).m_workers[i]?
          = some (Worker.fresh workCap resultCap) := by
  refine ⟨PostWork_stalls workCap resultCap mat vec h.2.2.2 (validInput_fits mat vec h) hW hbig,
    stalled_inFlight workCap resultCap mat vec, ?_, stalled_tail workCap resultCap mat vec⟩
  have : mat.length / WORKER_NUMBER ≤ mat.length := Nat.div_le_self _ _
  omega

/-- C2 at 3000 rows `[1]` and the vector `[1]`, with sockets that hold 64
requests and 256 replies: 321 of the 3000 rows are sent. -/
theorem PostWork_large_stalls_witness :
    PostWork (WorkerPool.fresh 64 256) (List.replicate 3000 [1]) [1]
        = Except.error (Fault.blocked, stalled 64 256 (List.replicate 3000 [1]) [1]) ∧
      ((stalled 64 256 (List.replicate 3000 [1]) [1]).m_workers.map Worker.inFlight).sum
        = 321 :=
  ⟨(PostWork_large_stalls 64 256 (List.replicate 3000 [1]) [1]
      (validInput_ones 3000 (by decide)) (by decide)
      (by rw [List.length_replicate]; decide)).1,
    (PostWork_large_stalls 64 256 (List.replicate 3000 [1]) [1]
      (validInput_ones 3000 (by decide)) (by decide)
      (by rw [List.length_replicate]; decide)).2.1⟩

/-- C3 at a large input: when `PostWork` has come to its halt on a matrix with
more than `resultCap + 1 + workCap` rows in the block of worker 0, no end
marker has been sent to any worker: none waits on a socket, none has been
answered, and the reply worker 0 is asleep sending is a `Value` result; worker
0 has been sent fewer rows than its block has. -/
theorem PostWork_large_no_end_marker (workCap resultCap : Nat) (mat : Matrix) (vec : Vec)
    (h : ValidInput mat vec) (hW : 1 ≤ workCap)
    (hbig : resultCap + workCap + 2 ≤ mat.length / WORKER_NUMBER) :
    (∃ pool1, PostWork (WorkerPool.fresh workCap resultCap) mat vec
        = Except.error (Fault.blocked, pool1) ∧
      (∀ w ∈ pool1.m_workers,
        (∀ work ∈ w.toWorker, work.type = WorkType.Value) ∧
          (∀ res ∈ w.toPool, res.type = ResultType.Value) ∧
          w.proc ≠ ProcState.sending Result.eos) ∧
      ∃ w0, pool1.m_workers[0]? = some w0 ∧ w0.inFlight < mat.length / WORKER_NUMBER) := by
  refine ⟨_, PostWork_stalls workCap resultCap mat vec h.2.2.2 (validInput_fits mat vec h) hW hbig,
    ?_, ?_⟩
  · intro w hw
    rcases stalled_mem workCap resultCap mat vec w hw with e | e
    · rw [e, loaded_gt _ _ _ _ _ (by omega)]
      refine ⟨?_, ?_, ?_⟩
      · intro work hwork
        obtain ⟨r, _, rfl⟩ := List.mem_map.mp hwork
        rfl
      · intro res hres
        obtain ⟨r, _, rfl⟩ := List.mem_map.mp hres
        rfl
      · intro hc
        have := congrArg (fun p => match p with
          | ProcState.sending r => r.type
          | _ => ResultType.Value) hc
        simp [rowResult, Result.eos] at this
    · rw [e]
      refine ⟨?_, ?_, ?_⟩
      · intro work hwork; simp [Worker.fresh] at hwork
      · intro res hres; simp [Worker.fresh] at hres
      · intro hc; simp [Worker.fresh] at hc
  · refine ⟨_, stalled_head workCap resultCap mat vec, ?_⟩
    simp [Worker.inFlight, Worker.fresh]
    omega

/-- C3 at 3000 rows `[1]` and the vector `[1]`, with sockets that hold 64
requests and 256 replies. -/
theorem PostWork_large_no_end_marker_witness :
    ∃ pool1, PostWork (WorkerPool.fresh 64 256) (List.replicate 3000 [1]) [1]
        = Except.error (Fault.blocked, pool1) ∧
      ∃ w0, pool1.m_workers[0]? = some w0 ∧ w0.inFlight < 3000 / WORKER_NUMBER := by
  obtain ⟨pool1, h1, _, w0, h2, h3⟩ :=
    PostWork_large_no_end_marker 64 256 (List.replicate 3000 [1]) [1]
      (validInput_ones 3000 (by decide)) (by decide)
      (by rw [List.length_replicate]; decide)
  rw [List.length_replicate] at h3
  exact ⟨pool1, h1, w0, h2, h3⟩

/-- C4 at one row of 129 elements: `Multiply` does not report an unsupported
row length; the first `memcpy` of `PostWork` runs past the end of the 128
element buffer, which is undefined behaviour, whatever the sockets hold. -/
theorem Multiply_oversized_row (workCap resultCap : Nat) :
    Multiply (WorkerPool.fresh workCap resultCap) [List.replicate 129 1] (List.replicate 129 1)
      = Except.error (Fault.undefinedBehaviour Undefined.memcpyOverflow,
          WorkerPool.fresh workCap resultCap) :=
  Multiply_single_oversized workCap resultCap _ _ (by simp [MAX_PROCESS_PAYLOAD]) (by simp)

/-- C5 at a large first input: on a pool as constructed, a first `Multiply` on
a valid input with more than `resultCap + 1 + workCap` rows in the block of
worker 0 never returns, so no second call is served; the pool it sleeps on is
not the pool as constructed: worker 0 is asleep in `send` with `workCap`
requests unread and `resultCap` replies uncollected. -/
theorem Multiply_first_call_stalls (workCap resultCap : Nat) (m1 : Matrix) (v1 : Vec)
    (h1 : ValidInput m1 v1) (hW : 1 ≤ workCap)
    (hbig : resultCap + workCap + 2 ≤ m1.length / WORKER_NUMBER) :
    ∃ pool1, Multiply (WorkerPool.fresh workCap resultCap) m1 v1
        = Except.error (Fault.blocked, pool1) ∧
      pool1 ≠ WorkerPool.fresh workCap resultCap ∧
      ∃ w0, pool1.m_workers[0]? = some w0 ∧
        w0.proc = ProcState.sending (rowResult m1 v1 resultCap) ∧
        w0.toWorker.length = workCap ∧ w0.toPool.length = resultCap := by
  refine ⟨_, Multiply_stalls workCap resultCap m1 v1 h1 hW hbig,
    stalled_ne_fresh workCap resultCap m1 v1, _, stalled_head workCap resultCap m1 v1, ?_⟩
  simp

/-- C5 at 3000 rows `[1]` and the vector `[1]` as the first input, with sockets
that hold 64 requests and 256 replies. -/
theorem Multiply_first_call_stalls_witness :
    ∃ pool1, Multiply (WorkerPool.fresh 64 256) (List.replicate 3000 [1]) [1]
        = Except.error (Fault.blocked, pool1) ∧
      pool1 ≠ WorkerPool.fresh 64 256 := by
  obtain ⟨pool1, h1, h2, _⟩ :=
    Multiply_first_call_stalls 64 256 (List.replicate 3000 [1]) [1]
      (validInput_ones 3000 (by decide)) (by decide)
      (by rw [List.length_replicate]; decide)
  exact ⟨pool1, h1, h2⟩

/-- C6, as the code has it: on a `Work` message tagged `EOS`, with the
coordinator's end of the socket open, the worker goes into the `send` of one
`Result` tagged `EOS` with index and value zero.  With room in the reply
direction the result is queued and the worker is back at the top of its loop,
where it goes on to receive the rest of the queue; without room it is asleep
in that `send`, and once there is room the `send` completes and the loop goes
on in the same way.  In both cases its socket stays open and it has not
exited. -/
theorem WorkerProc_on_eos (work : Work) (w : Worker) (h : work.type = WorkType.EOS)
    (hopen : w.fdOpen = true) :
    (w.toPool.length < w.resultCap →
        WorkerProc.pass (RecvRes.data work) w
            = { w with toPool := w.toPool ++ [Result.eos], proc := ProcState.running } ∧
          ∀ rest : List Work,
            WorkerProc (work :: rest) w
              = WorkerProc rest
                  { w with toWorker := rest, toPool := w.toPool ++ [Result.eos],
                           proc := ProcState.running }) ∧
      (¬ w.toPool.length < w.resultCap →
        WorkerProc.pass (RecvRes.data work) w
          = { w with proc := ProcState.sending Result.eos }) ∧
      (WorkerProc.pass (RecvRes.data work) w).childOpen = w.childOpen ∧
      (∀ status, (WorkerProc.pass (RecvRes.data work) w).proc ≠ ProcState.exited status) ∧
      (w.toPool.length < w.resultCap →
        ({ w with proc := ProcState.sending Result.eos } : Worker).schedule
          = WorkerProc w.toWorker
              { w with toPool := w.toPool ++ [Result.eos], proc := ProcState.running }) := by
  have hp : ∀ w1 : Worker, WorkerProc.pass (RecvRes.data work) w1 = w1.childSend Result.eos := by
    intro w1
    simp only [WorkerProc.pass, ReadWork, h]
    rfl
  refine ⟨?_, ?_, ?_, ?_, ?_⟩
  · intro hroom
    constructor
    · rw [hp]
      simp [Worker.childSend, hopen, hroom]
    · intro rest
      rw [WorkerProc, hp]
      simp [Worker.childSend, hopen, hroom]
  · intro hfull
    rw [hp]
    simp [Worker.childSend, hopen, hfull]
  · rw [hp]
    by_cases hroom : w.toPool.length < w.resultCap
    · simp [Worker.childSend, hopen, hroom]
    · simp [Worker.childSend, hopen, hroom]
  · intro status
    rw [hp]
    by_cases hroom : w.toPool.length < w.resultCap
    · simp [Worker.childSend, hopen, hroom]
    · simp [Worker.childSend, hopen, hroom]
  · intro hroom
    simp [Worker.schedule, Worker.childSend, hopen, hroom]

/-- C6 as amended, at the end marker of `PostWork` on a worker as constructed
whose socket holds one reply. -/
theorem WorkerProc_on_eos_witness :
    WorkerProc.pass (RecvRes.data Work.eos) (Worker.fresh 1 1)
      = { Worker.fresh 1 1 with toPool := [Result.eos], proc := ProcState.running } :=
  ((WorkerProc_on_eos Work.eos (Worker.fresh 1 1) rfl rfl).1 (by decide)).1

/-- C6 fails as stated: after the end marker the worker has neither closed its
socket nor exited, and a second end marker that follows on the queue is
received and answered as well. -/
theorem WorkerProc_on_eos_counterexample :
    ¬ ((WorkerProc.pass (RecvRes.data Work.eos) (Worker.fresh 4 4)).toPool = [Result.eos] ∧
        (WorkerProc.pass (RecvRes.data Work.eos) (Worker.fresh 4 4)).childOpen = false ∧
        (WorkerProc.pass (RecvRes.data Work.eos) (Worker.fresh 4 4)).proc
          = ProcState.exited EXIT_SUCCESS) ∧
      WorkerProc [Work.eos, Work.eos] (Worker.fresh 4 4)
        = { Worker.fresh 4 4 with toPool := [Result.eos, Result.eos] } := by
  constructor
  · decide
  · rfl

/-- C7: when the matrix is empty, or the vector is empty, or the column count
of the matrix differs from the length of the vector, `Multiply` ends in one of
its three leading assertions with the pool untouched and without a result;
when none of the three holds, the assertions pass and the call is `PostWork`
followed by `CollectResults`. -/
theorem Multiply_precondition (pool : WorkerPool) (mat : Matrix) (vec : Vec) :
    ((mat = [] ∨ vec = [] ∨ columnCount mat ≠ some vec.length) →
        ∃ a, a.isPrecondition = true ∧
          Multiply pool mat vec = Except.error (Fault.assertFailed a, pool)) ∧
      ((mat ≠ [] ∧ vec ≠ [] ∧ columnCount mat = some vec.length) →
        Multiply pool mat vec =
          match PostWork pool mat vec with
          | Except.error e => Except.error e
          | Except.ok pool1 => CollectResults pool1 mat.length) := by
  constructor
  · intro h
    cases mat with
    | nil => exact ⟨Assertion.matNonEmpty, rfl, rfl⟩
    | cons row0 rest =>
      by_cases hv : vec.length > 0
      · by_cases hd : row0.length = vec.length
        · exfalso
          rcases h with h | h | h
          · cases h
          · rw [h] at hv; simp at hv
          · apply h; simp [columnCount, hd]
        · exact ⟨Assertion.dimsMatch, rfl, by simp [Multiply, hv, hd]⟩
      · exact ⟨Assertion.vecNonEmpty, rfl, by simp only [Multiply, hv, if_false]⟩
  · rintro ⟨hm, hv, hc⟩
    cases mat with
    | nil => exact absurd rfl hm
    | cons row0 rest =>
      have hv1 : vec.length > 0 := List.length_pos.mpr hv
      have hd : row0.length = vec.length := by simpa [columnCount] using hc
      simp only [Multiply, hv1, if_true, hd]

/-- C7 at the empty matrix, on a pool as constructed. -/
theorem Multiply_precondition_witness :
    ∃ a, a.isPrecondition = true ∧
      Multiply (WorkerPool.fresh 64 256) [] [1]
        = Except.error (Fault.assertFailed a, WorkerPool.fresh 64 256) :=
  (Multiply_precondition (WorkerPool.fresh 64 256) [] [1]).1 (Or.inl rfl)

/-- C8 at a large input: in a `Multiply` call on a valid input with more than
`resultCap + 1 + workCap` rows in the block of worker 0, `PostWork` does not
return, so `CollectResults` is never entered and receives no result; and no
`EOS` result exists for it to receive: none is in the reply queue of any
worker. -/
theorem Multiply_large_collects_nothing (workCap resultCap : Nat) (mat : Matrix) (vec : Vec)
    (h : ValidInput mat vec) (hW : 1 ≤ workCap)
    (hbig : resultCap + workCap + 2 ≤ mat.length / WORKER_NUMBER) :
    (∀ pool1, PostWork (WorkerPool.fresh workCap resultCap) mat vec ≠ Except.ok pool1) ∧
      ∃ pool1, Multiply (WorkerPool.fresh workCap resultCap) mat vec
          = Except.error (Fault.blocked, pool1) ∧
        ∀ w ∈ pool1.m_workers, Result.eos ∉ w.toPool := by
  have hp := PostWork_stalls workCap resultCap mat vec h.2.2.2 (validInput_fits mat vec h) hW hbig
  refine ⟨?_, _, Multiply_stalls workCap resultCap mat vec h hW hbig, ?_⟩
  · intro pool1 hc
    rw [hp] at hc
    cases hc
  · intro w hw hmem
    rcases stalled_mem workCap resultCap mat vec w hw with e | e
    · rw [e, loaded_gt _ _ _ _ _ (by omega)] at hmem
      obtain ⟨r, _, hr⟩ := List.mem_map.mp hmem
      have := congrArg Result.type hr
      simp [rowResult, Result.eos] at this
    · rw [e] at hmem
      simp [Worker.fresh] at hmem

/-- C8 at 3000 rows `[1]` and the vector `[1]`, with sockets that hold 64
requests and 256 replies. -/
theorem Multiply_large_collects_nothing_witness :
    ∃ pool1, Multiply (WorkerPool.fresh 64 256) (List.replicate 3000 [1]) [1]
        = Except.error (Fault.blocked, pool1) ∧
      ∀ w ∈ pool1.m_workers, Result.eos ∉ w.toPool :=
  (Multiply_large_collects_nothing 64 256 (List.replicate 3000 [1]) [1]
    (validInput_ones 3000 (by decide)) (by decide)
    (by rw [List.length_replicate]; decide)).2

/-- C9, as the code has it: when `ReadWork` gives no message (`recv` gave `-1`
or `0`), the worker sends nothing, closes its socket and exits with
`EXIT_SUCCESS`. -/
theorem WorkerProc_on_no_message (r : RecvRes) (w : Worker) (h : ReadWork r = none) :
    (r = RecvRes.failed ∨ r = RecvRes.closed) ∧
      WorkerProc.pass r w
        = { w with childOpen := false, proc := ProcState.exited EXIT_SUCCESS } ∧
      (WorkerProc.pass r w).toPool = w.toPool := by
  cases r with
  | failed => exact ⟨Or.inl rfl, rfl, rfl⟩
  | closed => exact ⟨Or.inr rfl, rfl, rfl⟩
  | data work => simp [ReadWork] at h

/-- C9 as amended, at a socket the coordinator has shut down. -/
theorem WorkerProc_on_no_message_witness :
    WorkerProc.pass RecvRes.closed { Worker.fresh 64 256 with fdOpen := false }
      = { Worker.fresh 64 256 with
          fdOpen := false, childOpen := false, proc := ProcState.exited EXIT_SUCCESS } :=
  (WorkerProc_on_no_message RecvRes.closed { Worker.fresh 64 256 with fdOpen := false } rfl).2.1

/-- C9 fails as stated: a failed or closed receive is not handled like the end
marker, neither in what is sent nor in the state that is reached. -/
theorem WorkerProc_on_no_message_counterexample :
    WorkerProc.pass RecvRes.closed (Worker.fresh 4 4)
        ≠ WorkerProc.pass (RecvRes.data Work.eos) (Worker.fresh 4 4) ∧
      WorkerProc.pass RecvRes.failed (Worker.fresh 4 4)
        ≠ WorkerProc.pass (RecvRes.data Work.eos) (Worker.fresh 4 4) ∧
      (WorkerProc.pass RecvRes.closed (Worker.fresh 4 4)).toPool
        ≠ (WorkerProc.pass (RecvRes.data Work.eos) (Worker.fresh 4 4)).toPool ∧
      (WorkerProc.pass RecvRes.closed (Worker.fresh 4 4)).proc
        ≠ (WorkerProc.pass (RecvRes.data Work.eos) (Worker.fresh 4 4)).proc := by
  decide

/-- C10: for every matrix of `R ≥ 0` rows and every pool holding
`WORKER_NUMBER` worker handles, the assertion `end <= rows` holds for every
`workerId` below 8, every row index of a base block and every leftover row
index is below `R`, every worker index used is below the number of handles,
and `PostWork` never ends in the assertion `end <= rows` or in a subscript
outside the matrix or outside `m_workers`. -/
theorem PostWork_index_safe (pool : WorkerPool) (mat : Matrix) (vec : Vec)
    (hlen : pool.m_workers.length = WORKER_NUMBER) :
    (∀ workerId, workerId < WORKER_NUMBER →
        (workerId + 1) * (mat.length / WORKER_NUMBER) ≤ mat.length) ∧
      (∀ workerId rowId, workerId < WORKER_NUMBER →
        workerId * (mat.length / WORKER_NUMBER) ≤ rowId →
        rowId < (workerId + 1) * (mat.length / WORKER_NUMBER) →
        rowId < mat.length ∧ workerId < pool.m_workers.length) ∧
      (∀ i, i < mat.length % WORKER_NUMBER →
        mat.length / WORKER_NUMBER * WORKER_NUMBER + i < mat.length ∧
          i < pool.m_workers.length) ∧
      ∀ f pool1, PostWork pool mat vec = Except.error (f, pool1) → f.isIndexFault = false := by
  have hW : 0 < WORKER_NUMBER := by decide
  have hmod : mat.length % WORKER_NUMBER < WORKER_NUMBER := Nat.mod_lt _ hW
  have hdm : mat.length / WORKER_NUMBER * WORKER_NUMBER + mat.length % WORKER_NUMBER
      = mat.length := by
    rw [Nat.mul_comm]; exact Nat.div_add_mod _ _
  have hblock : ∀ workerId, workerId < WORKER_NUMBER →
      (workerId + 1) * (mat.length / WORKER_NUMBER) ≤ mat.length := by
    intro workerId hw
    calc (workerId + 1) * (mat.length / WORKER_NUMBER)
        ≤ WORKER_NUMBER * (mat.length / WORKER_NUMBER) := Nat.mul_le_mul_right _ (by omega)
      _ ≤ mat.length := Nat.mul_div_le _ _
  refine ⟨hblock, ?_, ?_, ?_⟩
  · intro workerId rowId hw _ h2
    exact ⟨Nat.lt_of_lt_of_le h2 (hblock workerId hw), by omega⟩
  · intro i hi
    exact ⟨by omega, by omega⟩
  · intro f pool1 h
    have hs := PostWork_safe pool mat vec hlen
    rw [h] at hs
    exact hs

/-- C10 at three rows on a pool as constructed: the last leftover row has
index 2, below 3, and goes to worker 2, below 8; the assertion of worker 7
holds. -/
theorem PostWork_index_safe_witness :
    (3 / WORKER_NUMBER * WORKER_NUMBER + 2 < 3 ∧
        2 < (WorkerPool.fresh 64 256).m_workers.length) ∧
      (7 + 1) * (3 / WORKER_NUMBER) ≤ 3 :=
  ⟨(PostWork_index_safe (WorkerPool.fresh 64 256) [[1, 2], [3, 4], [5, 6]] [1, 1]
      (by simp [WorkerPool.fresh])).2.2.1 2 (by decide),
    (PostWork_index_safe (WorkerPool.fresh 64 256) [[1, 2], [3, 4], [5, 6]] [1, 1]
      (by simp [WorkerPool.fresh])).1 7 (by decide)⟩

end Lab3
